import Mathlib

/-!
Verification of the birthday-bot core (src/bot.py, src/db.py) against its
specification.  The Python code is shallowly embedded: `datetime.date`
construction is `mkDate` (returning `none` for the `ValueError` raised on an
invalid calendar date), SQLite tables are lists of rows, and the daily sweep
threads the database state explicitly.  An `Option` result of `none` always
models a raised exception.
-/

namespace Birthday

/-! ## Calendar primitives, after `datetime.date` -/

/-- Leap-year rule used by `datetime`: divisible by 4 and not by 100, or by 400. -/
def isLeap (y : Int) : Bool :=
  (y % 4 == 0 && y % 100 != 0) || y % 400 == 0

/-- Length of a month, as `datetime` computes it. -/
def daysInMonth (y m : Int) : Int :=
  if m = 2 then (if isLeap y then 29 else 28)
  else if m = 4 ∨ m = 6 ∨ m = 9 ∨ m = 11 then 30
  else 31

/-- A value of Python's `datetime.date` (only ever built through `mkDate`). -/
structure PyDate where
  year : Int
  month : Int
  day : Int
deriving DecidableEq

/-- The range check performed by the `date` constructor
(`MINYEAR = 1`, `MAXYEAR = 9999`). -/
def dateValid (y m d : Int) : Prop :=
  1 ≤ y ∧ y ≤ 9999 ∧ 1 ≤ m ∧ m ≤ 12 ∧ 1 ≤ d ∧ d ≤ daysInMonth y m

instance (y m d : Int) : Decidable (dateValid y m d) := by
  unfold dateValid; infer_instance

/-- `datetime.date(y, m, d)`; `none` models the raised `ValueError`. -/
def mkDate (y m d : Int) : Option PyDate :=
  if dateValid y m d then some ⟨y, m, d⟩ else none

/-- Python date comparison `a <= b`: lexicographic on (year, month, day). -/
def dateLe (a b : PyDate) : Prop :=
  a.year < b.year ∨
    (a.year = b.year ∧
      (a.month < b.month ∨ (a.month = b.month ∧ a.day ≤ b.day)))

instance (a b : PyDate) : Decidable (dateLe a b) := by
  unfold dateLe; infer_instance

/-- Days before the start of month `m` in a non-leap year
(`_days_before_month` cumulative table). -/
def cumDays (m : Int) : Int :=
  if m = 1 then 0 else if m = 2 then 31 else if m = 3 then 59
  else if m = 4 then 90 else if m = 5 then 120 else if m = 6 then 151
  else if m = 7 then 181 else if m = 8 then 212 else if m = 9 then 243
  else if m = 10 then 273 else if m = 11 then 304 else 334

/-- `date.toordinal()`: day number counting 0001-01-01 as 1. -/
def toOrdinal (a : PyDate) : Int :=
  365 * (a.year - 1) + (a.year - 1) / 4 - (a.year - 1) / 100
    + (a.year - 1) / 400 + cumDays a.month
    + (if 2 < a.month ∧ isLeap a.year then 1 else 0) + a.day

/-- `(a - b).days` for two dates. -/
def dateSubDays (a b : PyDate) : Int := toOrdinal a - toOrdinal b

/-- `bot.next_occurrence`: candidate in today's year, rolled to next year when
already past.  `none` models the `ValueError` escaping from `date(...)`. -/
def next_occurrence (day month : Int) (today : PyDate) : Option PyDate :=
  match mkDate today.year month day with
  | none => none
  | some d => if dateLe today d then some d else mkDate (today.year + 1) month day

/-! ## Date parser, after `bot.parse_date` (strings as `List Char`) -/

/-- ASCII whitespace stripped by `str.strip()`. -/
def isPySpace (c : Char) : Bool :=
  c == ' ' || c == '\t' || c == '\n' || c == '\r' ||
    c == Char.ofNat 11 || c == Char.ofNat 12

/-- `str.strip()`. -/
def pyStrip (cs : List Char) : List Char :=
  ((cs.dropWhile isPySpace).reverse.dropWhile isPySpace).reverse

/-- `str.split(sep)` for a one-character separator. -/
def splitChar (sep : Char) : List Char → List (List Char)
  | [] => [[]]
  | c :: rest =>
    let r := splitChar sep rest
    if c = sep then [] :: r
    else
      match r with
      | [] => [[c]]
      | p :: ps => (c :: p) :: ps

def digitVal (c : Char) : Int := (c.toNat : Int) - 48

/-- Integer value of a digit string, skipping underscore group separators. -/
def digitsToInt (cs : List Char) : Int :=
  cs.foldl (fun acc c => if c = '_' then acc else acc * 10 + digitVal c) 0

/-- Tail of a valid `int()` literal body: digits with single underscores
allowed only between digits. -/
def intTailOk : List Char → Bool
  | [] => true
  | '_' :: c :: rest => c.isDigit && intTailOk (c :: rest)
  | c :: rest => c.isDigit && intTailOk rest

def intBodyOk : List Char → Bool
  | [] => false
  | c :: rest => c.isDigit && intTailOk rest

/-- Model of Python `int(str)` for ASCII decimal literals: surrounding
whitespace, an optional sign, digits with underscore grouping.  (Non-ASCII
digit forms are not modelled.)  `none` is the raised `ValueError`. -/
def pyInt (cs : List Char) : Option Int :=
  match pyStrip cs with
  | '+' :: rest => if intBodyOk rest then some (digitsToInt rest) else none
  | '-' :: rest => if intBodyOk rest then some (-(digitsToInt rest)) else none
  | body => if intBodyOk body then some (digitsToInt body) else none

def allDigits (cs : List Char) : Bool := cs.all Char.isDigit

/-- `strptime` `%Y` field: exactly four digits. -/
def yearField (cs : List Char) : Bool := allDigits cs && decide (cs.length = 4)

/-- `strptime` `%m` field: regex `1[0-2]|0[1-9]|[1-9]`. -/
def monthField (cs : List Char) : Bool :=
  allDigits cs &&
    decide (1 ≤ cs.length ∧ cs.length ≤ 2 ∧
      1 ≤ digitsToInt cs ∧ digitsToInt cs ≤ 12)

def dayDigitsField (cs : List Char) : Bool :=
  allDigits cs &&
    decide (1 ≤ cs.length ∧ cs.length ≤ 2 ∧
      1 ≤ digitsToInt cs ∧ digitsToInt cs ≤ 31)

/-- `strptime` `%d` field: regex `3[0-1]|[1-2]\d|0[1-9]|[1-9]| [1-9]`. -/
def dayField (cs : List Char) : Bool :=
  dayDigitsField cs ||
    (match cs with
     | [' ', c] => c.isDigit && c != '0'
     | _ => false)

/-- `datetime.strptime(s, "%Y-%m-%d")`; both a regex mismatch and an invalid
calendar date raise `ValueError` (`none`), caught by the caller. -/
def parseISO (cs : List Char) : Option (Int × Int × Option Int) :=
  match splitChar '-' cs with
  | [ys, ms, ds] =>
    if yearField ys && monthField ms && dayField ds then
      match mkDate (digitsToInt ys) (digitsToInt ms)
          (digitsToInt (ds.filter (fun c => c != ' '))) with
      | some dt => some (dt.day, dt.month, some dt.year)
      | none => none
    else none
  | _ => none

/-- Outcome of one separator iteration of the `parse_date` loop. -/
inductive ParsePart where
  | noMatch : ParsePart
  | failed : ParsePart
  | ok : Int × Int × Option Int → ParsePart

/-- Two-component branch: `int(dd)`, `int(mm)`, then `date(2000, month, day)`
as the validity check; any exception propagates. -/
def try2 (dd mm : List Char) : Option (Int × Int × Option Int) :=
  match pyInt dd, pyInt mm with
  | some day, some month =>
    (match mkDate 2000 month day with
     | some _ => some (day, month, none)
     | none => none)
  | _, _ => none

/-- Three-component branch: validity is checked with the supplied year. -/
def try3 (dd mm yyyy : List Char) : Option (Int × Int × Option Int) :=
  match pyInt dd, pyInt mm, pyInt yyyy with
  | some day, some month, some year =>
    (match mkDate year month day with
     | some _ => some (day, month, some year)
     | none => none)
  | _, _, _ => none

def trySep (cs : List Char) (sep : Char) : ParsePart :=
  match splitChar sep cs with
  | [dd, mm] =>
    (match try2 dd mm with
     | some r => ParsePart.ok r
     | none => ParsePart.failed)
  | [dd, mm, yyyy] =>
    (match try3 dd mm yyyy with
     | some r => ParsePart.ok r
     | none => ParsePart.failed)
  | _ => ParsePart.noMatch

def sepLoop (cs : List Char) : List Char → Option (Int × Int × Option Int)
  | [] => none
  | sep :: seps =>
    match trySep cs sep with
    | ParsePart.ok r => some r
    | ParsePart.failed => none
    | ParsePart.noMatch => sepLoop cs seps

/-- `bot.parse_date`; `none` models any raised exception, including the final
`raise ValueError("bad date format")`. -/
def parse_date (raw : String) : Option (Int × Int × Option Int) :=
  let s := pyStrip raw.data
  match parseISO s with
  | some r => some r
  | none => sepLoop s ['.', '-', '/']

/-! ## Record store, after `db.py` (the `birthdays` table as a list of rows) -/

structure Row where
  id : Int
  user_id : Int
  name : String
  day : Int
  month : Int
  year : Option Int
  last_notified_year : Option Int
deriving DecidableEq

structure DB where
  rows : List Row
  nextId : Int
deriving DecidableEq

/-- `init_db`: empty table, AUTOINCREMENT counter at 1. -/
def init_db : DB := ⟨[], 1⟩

/-- SQLite `NOCASE` collation and `LOWER()` fold only ASCII letters. -/
def lowerChar (c : Char) : Char :=
  if 'A' ≤ c ∧ c ≤ 'Z' then Char.ofNat (c.toNat + 32) else c

def lowerAscii (s : String) : String := ⟨s.data.map lowerChar⟩

/-- The uniqueness key of `UNIQUE(user_id, name COLLATE NOCASE)`. -/
def keyOf (r : Row) : Int × String := (r.user_id, lowerAscii r.name)

/-- The schema invariant: at most one row per (owner, case-folded name). -/
def keysNodup (db : DB) : Prop := (db.rows.map keyOf).Nodup

instance (db : DB) : Decidable (keysNodup db) := by
  unfold keysNodup; infer_instance

def sameKey (u : Int) (n : String) (r : Row) : Bool :=
  r.user_id == u && lowerAscii r.name == lowerAscii n

/-- `db.upsert_birthday`: `INSERT ... ON CONFLICT(user_id, name) DO UPDATE SET
day, month, year, last_notified_year=NULL` — on conflict the stored `id` and
`name` are untouched.  The AUTOINCREMENT counter advances on every call. -/
def upsert_birthday (u : Int) (n : String) (d m : Int) (y : Option Int)
    (db : DB) : DB :=
  if db.rows.any (sameKey u n) then
    { rows := db.rows.map (fun r =>
        if sameKey u n r then
          { r with day := d, month := m, year := y, last_notified_year := none }
        else r),
      nextId := db.nextId + 1 }
  else
    { rows := db.rows ++ [⟨db.nextId, u, n, d, m, y, none⟩],
      nextId := db.nextId + 1 }

/-- `db.delete_birthday`: `DELETE WHERE user_id=? AND name=? COLLATE NOCASE`,
returning `cur.rowcount`. -/
def delete_birthday (u : Int) (n : String) (db : DB) : DB × Nat :=
  ({ db with rows := db.rows.filter (fun r => !(sameKey u n r)) },
   (db.rows.filter (sameKey u n)).length)

/-- One result row of `list_birthdays`: `SELECT name, day, month, year`. -/
structure Summary where
  name : String
  day : Int
  month : Int
  year : Option Int
deriving DecidableEq

def summaryOf (r : Row) : Summary := ⟨r.name, r.day, r.month, r.year⟩

/-- Byte order of two UTF-8 strings as lists of code points (UTF-8 byte order
agrees with code-point order). -/
def charListLe : List Char → List Char → Bool
  | [], _ => true
  | _ :: _, [] => false
  | a :: as, b :: bs =>
    decide (a < b) || (decide (a = b) && charListLe as bs)

/-- The `ORDER BY month, day, LOWER(name)` sort key comparison. -/
def listKeyLe (a b : Summary) : Bool :=
  decide (a.month < b.month) ||
    (decide (a.month = b.month) &&
      (decide (a.day < b.day) ||
        (decide (a.day = b.day) &&
          charListLe (lowerAscii a.name).data (lowerAscii b.name).data)))

def insertLe (a : Summary) : List Summary → List Summary
  | [] => [a]
  | b :: bs => if listKeyLe a b then a :: b :: bs else b :: insertLe a bs

/-- Insertion sort realising the `ORDER BY`; the sort key is unique per owner
under `keysNodup`, so any sorted permutation is the same list. -/
def sortLe : List Summary → List Summary
  | [] => []
  | a :: as => insertLe a (sortLe as)

/-- `db.list_birthdays`. -/
def list_birthdays (u : Int) (db : DB) : List Summary :=
  sortLe ((db.rows.filter (fun r => r.user_id == u)).map summaryOf)

def dedupFirstAux : List Int → List Int → List Int
  | [], _ => []
  | x :: xs, seen =>
    if x ∈ seen then dedupFirstAux xs seen
    else x :: dedupFirstAux xs (x :: seen)

/-- `db.get_all_users`: `SELECT DISTINCT user_id`. -/
def get_all_users (db : DB) : List Int :=
  dedupFirstAux (db.rows.map (fun r => r.user_id)) []

/-- `db.get_birthdays_for_user`. -/
def get_birthdays_for_user (u : Int) (db : DB) : List Row :=
  db.rows.filter (fun r => r.user_id == u)

/-- `db.set_last_notified_year`: `UPDATE birthdays SET last_notified_year=?
WHERE id=?`. -/
def set_last_notified_year (i y : Int) (db : DB) : DB :=
  { db with rows := db.rows.map (fun r =>
      if r.id = i then { r with last_notified_year := some y } else r) }

/-! ## Daily sweep, after `bot.daily_check` -/

def DAYS_BEFORE : Int := 3

/-- One `send_message` invocation: (chat user id, record id, days_left). -/
abbrev Send := Int × Int × Int

/-- The inner record loop of `daily_check` for one user's snapshot, threading
the database.  `ok` is the messaging collaborator: whether delivery to
(user, record) succeeds.  The `Bool` flags an uncaught exception from
`next_occurrence` (which aborts the whole sweep). -/
def processRecs (ok : Int → Int → Bool) (today : PyDate) (u : Int) :
    List Row → DB → DB × List Send × Bool
  | [], db => (db, [], false)
  | b :: rest, db =>
    match next_occurrence b.day b.month today with
    | none => (db, [], true)
    | some occ =>
      let dl := dateSubDays occ today
      if ¬(0 ≤ dl ∧ dl ≤ DAYS_BEFORE) then processRecs ok today u rest db
      else if b.last_notified_year = some occ.year then
        processRecs ok today u rest db
      else if ok u b.id then
        let res := processRecs ok today u rest
          (set_last_notified_year b.id occ.year db)
        (res.1, (u, b.id, dl) :: res.2.1, res.2.2)
      else
        let res := processRecs ok today u rest db
        (res.1, (u, b.id, dl) :: res.2.1, res.2.2)

def usersLoop (ok : Int → Int → Bool) (today : PyDate) :
    List Int → DB → DB × List Send × Bool
  | [], db => (db, [], false)
  | u :: us, db =>
    let r1 := processRecs ok today u (get_birthdays_for_user u db) db
    if r1.2.2 then r1
    else
      let r2 := usersLoop ok today us r1.1
      (r2.1, r1.2.1 ++ r2.2.1, r2.2.2)

/-- `bot.daily_check`: returns the final database, the `send_message`
invocations in order, and whether an exception escaped the sweep. -/
def daily_check (ok : Int → Int → Bool) (today : PyDate) (db : DB) :
    DB × List Send × Bool :=
  usersLoop ok today (get_all_users db) db

/-! ## Pure descriptions used to state and prove the sweep properties -/

/-- Per-user sweep outcome as pure data: the sends, the
(record id, year) marks written on successful delivery, and the crash flag. -/
def sweepUser (ok : Int → Int → Bool) (today : PyDate) (u : Int) :
    List Row → List Send × List (Int × Int) × Bool
  | [] => ([], [], false)
  | b :: rest =>
    match next_occurrence b.day b.month today with
    | none => ([], [], true)
    | some occ =>
      let dl := dateSubDays occ today
      if ¬(0 ≤ dl ∧ dl ≤ DAYS_BEFORE) then sweepUser ok today u rest
      else if b.last_notified_year = some occ.year then sweepUser ok today u rest
      else if ok u b.id then
        let res := sweepUser ok today u rest
        ((u, b.id, dl) :: res.1, (b.id, occ.year) :: res.2.1, res.2.2)
      else
        let res := sweepUser ok today u rest
        ((u, b.id, dl) :: res.1, res.2.1, res.2.2)

def applyMarks (ms : List (Int × Int)) (db : DB) : DB :=
  ms.foldl (fun d p => set_last_notified_year p.1 p.2 d) db

def patchMarks (ms : List (Int × Int)) (r : Row) : Row :=
  ms.foldl
    (fun r' p =>
      if r'.id = p.1 then { r' with last_notified_year := some p.2 } else r')
    r

/-- Number of `send_message` invocations carrying record id `i`. -/
def countId (i : Int) (s : List Send) : Nat :=
  (s.filter (fun t => t.2.1 == i)).length

/-- The due-and-unnotified condition under which `daily_check` invokes
`send_message` for a record, with `dl` the computed `days_left`. -/
def attemptCond (today : PyDate) (r : Row) (dl : Int) : Prop :=
  ∃ occ, next_occurrence r.day r.month today = some occ ∧
    dl = dateSubDays occ today ∧ 0 ≤ dl ∧ dl ≤ DAYS_BEFORE ∧
    r.last_notified_year ≠ some occ.year

def rowIds (db : DB) : List Int := db.rows.map (fun r => r.id)

/-- No record of the database makes `next_occurrence` raise at `today`. -/
def noCrash (today : PyDate) (db : DB) : Prop :=
  ∀ r ∈ db.rows, (next_occurrence r.day r.month today).isSome

instance (today : PyDate) (db : DB) : Decidable (noCrash today db) := by
  unfold noCrash; infer_instance

/-- An arbitrary sequence of `upsert_birthday` calls. -/
abbrev UpsertOp := Int × String × Int × Int × Option Int

def applyUpserts (ops : List UpsertOp) (db : DB) : DB :=
  ops.foldl
    (fun d o => upsert_birthday o.1 o.2.1 o.2.2.1 o.2.2.2.1 o.2.2.2.2 d) db

/-- Number of rows carrying the uniqueness key `k`. -/
def countKey (k : Int × String) (rows : List Row) : Nat :=
  (rows.filter (fun r => keyOf r == k)).length

/-- Sample store: three records dated (day, month) = (3,5), (1,5), (1,1). -/
def dbThree : DB :=
  ⟨[⟨1, 7, "a", 3, 5, none, none⟩, ⟨2, 7, "b", 1, 5, none, none⟩,
    ⟨3, 7, "c", 1, 1, none, none⟩], 4⟩

/-- Sample store: a single record, due on Feb 14. -/
def dbOne : DB := ⟨[⟨1, 7, "Masha", 14, 2, some 2004, none⟩], 2⟩

/-- Sample store: two owners, both records due on the reference date used in
the sweep witnesses. -/
def dbTwo : DB :=
  ⟨[⟨1, 7, "Masha", 14, 2, some 2004, none⟩,
    ⟨2, 8, "Dima", 13, 2, none, none⟩], 3⟩

/-- Sample store: one record with an original mixed-case name. -/
def dbMaria : DB := ⟨[⟨1, 7, "Maria", 14, 2, some 2004, some 2024⟩], 2⟩

/-! ## C1: Feb 29 in `next_occurrence` -/

/-- C1, counterexample: at the reference date 2023-03-01 (a non-leap year),
`next_occurrence(29, 2, today)` does not return any substitute date — the
`date(today.year, 2, 29)` construction raises (`none`), so the operation is
not total on the Feb 29 input. -/
theorem next_occurrence_feb29_counterexample :
    next_occurrence 29 2 ⟨2023, 3, 1⟩ = none := by decide

/-- C1, amended: for every reference date whose year is not a leap year,
`next_occurrence(29, 2, today)` raises a date-construction error (modelled as
`none`) instead of returning a substitute date. -/
theorem next_occurrence_feb29_nonleap (today : PyDate)
    (h : isLeap today.year = false) :
    next_occurrence 29 2 today = none := by
  have hv : ¬ dateValid today.year 2 29 := by
    intro hval
    have h6 := hval.2.2.2.2.2
    simp [daysInMonth, h] at h6
  simp [next_occurrence, mkDate, hv]

/-- C1 witness: the amended theorem applied at the concrete non-leap date
2025-06-15. -/
theorem next_occurrence_feb29_nonleap_witness :
    isLeap (2025 : Int) = false ∧ next_occurrence 29 2 ⟨2025, 6, 15⟩ = none :=
  ⟨by decide, next_occurrence_feb29_nonleap ⟨2025, 6, 15⟩ (by decide)⟩

/-! ## C2: Feb 29 acceptance in `parse_date` -/

/-- C2, counterexample: the three-component input `29.02.2023` denotes Feb 29,
but `parse_date` raises (`none`) because the date is validated against the
supplied year 2023, which is not a leap year — not against a fixed leap
reference year. -/
theorem parse_feb29_counterexample : parse_date "29.02.2023" = none := by
  decide

/-- C2, amended: Feb 29 in the two-component form is always accepted (the
validity check uses the fixed leap reference year 2000), for each of the three
separators; in the three-component form the date is validated against the
supplied year, so `29<sep>02<sep>YYYY` is accepted exactly when `YYYY` is a
leap year — witness the accepted `29.02.2024`, the rejected `29.02.2023`, and
in general the `date(year, 2, 29)` check succeeding iff the year is leap. -/
theorem parse_feb29_amended :
    parse_date "29.02" = some (29, 2, none) ∧
    parse_date "29-02" = some (29, 2, none) ∧
    parse_date "29/02" = some (29, 2, none) ∧
    parse_date "29.02.2024" = some (29, 2, some 2024) ∧
    parse_date "29.02.2023" = none ∧
    ∀ y : Int, 1 ≤ y → y ≤ 9999 → ((mkDate y 2 29).isSome = isLeap y) := by
  refine ⟨by decide, by decide, by decide, by decide, by decide, ?_⟩
  intro y h1 h2
  cases hl : isLeap y with
  | true =>
    have hv : dateValid y 2 29 := by
      refine ⟨h1, h2, by omega, by omega, by omega, ?_⟩
      simp [daysInMonth, hl]
    simp [mkDate, hv]
  | false =>
    have hv : ¬ dateValid y 2 29 := by
      intro hval
      have h6 := hval.2.2.2.2.2
      simp [daysInMonth, hl] at h6
    simp [mkDate, hv]

/-- C2 witness: the general conjunct of the amended theorem applied at the
concrete leap year 2028. -/
theorem parse_feb29_amended_witness :
    (mkDate 2028 2 29).isSome = isLeap 2028 :=
  parse_feb29_amended.2.2.2.2.2 2028 (by decide) (by decide)

/-! ## C6: shape of `next_occurrence` -/

/-- C6: whenever the (day, month) pair is constructible in today's year, the
next occurrence is that candidate when it is on or after today, and otherwise
the result of constructing the candidate in the following year; in particular
`next_occurrence(14, 2, 2024-02-14)` is 2024-02-14 (same day, not pushed to
next year) and `next_occurrence(14, 2, 2024-02-15)` is 2025-02-14. -/
theorem next_occurrence_spec (day month : Int) (today : PyDate) (c : PyDate)
    (hc : mkDate today.year month day = some c) :
    (next_occurrence day month today =
      if dateLe today c then some c else mkDate (today.year + 1) month day) ∧
    next_occurrence 14 2 ⟨2024, 2, 14⟩ = some ⟨2024, 2, 14⟩ ∧
    next_occurrence 14 2 ⟨2024, 2, 15⟩ = some ⟨2025, 2, 14⟩ := by
  refine ⟨?_, by decide, by decide⟩
  simp [next_occurrence, hc]

/-- C6 witness: the theorem applied at day 14, month 2, today 2024-02-15,
where the candidate 2024-02-14 is already past and the result rolls over. -/
theorem next_occurrence_spec_witness :
    mkDate 2024 2 14 = some ⟨2024, 2, 14⟩ ∧
    (next_occurrence 14 2 ⟨2024, 2, 15⟩ =
      if dateLe ⟨2024, 2, 15⟩ ⟨2024, 2, 14⟩ then some ⟨2024, 2, 14⟩
      else mkDate (2024 + 1) 2 14) := by
  exact ⟨by decide,
    (next_occurrence_spec 14 2 ⟨2024, 2, 15⟩ ⟨2024, 2, 14⟩ (by decide)).1⟩

/-! ## Record store lemmas -/

theorem sameKey_iff (u : Int) (n : String) (r : Row) :
    sameKey u n r = true ↔ keyOf r = (u, lowerAscii n) := by
  simp [sameKey, keyOf, Prod.ext_iff]

theorem keyOf_update (u : Int) (n : String) (d m : Int) (y : Option Int)
    (r : Row) :
    keyOf (if sameKey u n r then
      { r with day := d, month := m, year := y, last_notified_year := none }
    else r) = keyOf r := by
  by_cases h : sameKey u n r = true
  · simp [h, keyOf]
  · simp [h]

theorem upsert_rows_conflict (u : Int) (n : String) (d m : Int)
    (y : Option Int) (db : DB) (h : db.rows.any (sameKey u n) = true) :
    (upsert_birthday u n d m y db).rows = db.rows.map (fun r =>
      if sameKey u n r then
        { r with day := d, month := m, year := y, last_notified_year := none }
      else r) := by
  simp [upsert_birthday, h]

theorem upsert_rows_fresh (u : Int) (n : String) (d m : Int) (y : Option Int)
    (db : DB) (h : db.rows.any (sameKey u n) = false) :
    (upsert_birthday u n d m y db).rows =
      db.rows ++ [⟨db.nextId, u, n, d, m, y, none⟩] := by
  simp [upsert_birthday, h]

theorem upsert_keys_conflict (u : Int) (n : String) (d m : Int)
    (y : Option Int) (db : DB) (h : db.rows.any (sameKey u n) = true) :
    (upsert_birthday u n d m y db).rows.map keyOf = db.rows.map keyOf := by
  rw [upsert_rows_conflict u n d m y db h, List.map_map]
  exact List.map_congr_left (fun r _ => keyOf_update u n d m y r)

theorem upsert_keys_fresh (u : Int) (n : String) (d m : Int) (y : Option Int)
    (db : DB) (h : db.rows.any (sameKey u n) = false) :
    (upsert_birthday u n d m y db).rows.map keyOf =
      db.rows.map keyOf ++ [(u, lowerAscii n)] := by
  rw [upsert_rows_fresh u n d m y db h, List.map_append]
  rfl

theorem upsert_keysNodup (u : Int) (n : String) (d m : Int) (y : Option Int)
    (db : DB) (h : keysNodup db) :
    keysNodup (upsert_birthday u n d m y db) := by
  unfold keysNodup at h ⊢
  by_cases hc : db.rows.any (sameKey u n) = true
  · rw [upsert_keys_conflict u n d m y db hc]
    exact h
  · have hc' : db.rows.any (sameKey u n) = false := by simpa using hc
    rw [upsert_keys_fresh u n d m y db hc']
    have hk : (u, lowerAscii n) ∉ db.rows.map keyOf := by
      intro hmem
      rcases List.mem_map.1 hmem with ⟨r, hr, hkey⟩
      exact hc (List.any_eq_true.2 ⟨r, hr, (sameKey_iff u n r).2 hkey⟩)
    refine h.append (List.nodup_singleton _) ?_
    intro a ha hb
    rw [List.mem_singleton] at hb
    subst hb
    exact hk ha

theorem applyUpserts_keysNodup :
    ∀ (ops : List UpsertOp) (db : DB), keysNodup db →
      keysNodup (applyUpserts ops db)
  | [], _, h => h
  | o :: ops, db, h =>
    applyUpserts_keysNodup ops _
      (upsert_keysNodup o.1 o.2.1 o.2.2.1 o.2.2.2.1 o.2.2.2.2 db h)

theorem countKey_eq_zero : ∀ (rows : List Row) (k : Int × String),
    (∀ r ∈ rows, keyOf r ≠ k) → countKey k rows = 0
  | [], _, _ => rfl
  | r :: rows, k, h => by
    have hr : ¬ ((keyOf r == k) = true) := by
      simp only [beq_iff_eq]
      exact h r (List.mem_cons_self r rows)
    have htail := countKey_eq_zero rows k
      (fun s hs => h s (List.mem_cons_of_mem r hs))
    simpa [countKey, List.filter_cons, hr] using htail

theorem countKey_eq_one : ∀ (rows : List Row),
    (rows.map keyOf).Nodup → ∀ k ∈ rows.map keyOf, countKey k rows = 1
  | [], _, k, hmem => by simp at hmem
  | r :: rows, hnd, k, hmem => by
    rw [List.map_cons, List.nodup_cons] at hnd
    rcases hnd with ⟨hnotin, hnd⟩
    rw [List.map_cons, List.mem_cons] at hmem
    by_cases he : keyOf r = k
    · have h0 : countKey k rows = 0 := by
        apply countKey_eq_zero
        intro s hs hsk
        exact hnotin (by rw [he, ← hsk]; exact List.mem_map_of_mem keyOf hs)
      have hb : (keyOf r == k) = true := by simp [he]
      simpa [countKey, List.filter_cons, hb] using h0
    · have hmem' : k ∈ rows.map keyOf := by
        rcases hmem with h | h
        · exact absurd h.symm he
        · exact h
      have hb : ¬ ((keyOf r == k) = true) := by simp [he]
      have := countKey_eq_one rows hnd k hmem'
      simpa [countKey, List.filter_cons, hb] using this

theorem upsert_key_mem (u : Int) (n : String) (d m : Int) (y : Option Int)
    (db : DB) :
    (u, lowerAscii n) ∈ (upsert_birthday u n d m y db).rows.map keyOf := by
  by_cases hc : db.rows.any (sameKey u n) = true
  · rw [upsert_keys_conflict u n d m y db hc]
    rcases List.any_eq_true.1 hc with ⟨r, hr, hs⟩
    exact List.mem_map.2 ⟨r, hr, (sameKey_iff u n r).1 hs⟩
  · have hc' : db.rows.any (sameKey u n) = false := by simpa using hc
    rw [upsert_keys_fresh u n d m y db hc']
    simp [keyOf]

/-- C7: under the schema invariant, any sequence of upserts keeps at most one
record per (owner, case-folded name); one upsert leaves exactly one record
with the upserted key, and two successive upserts of the same owner and name
leave exactly one record with that key, holding the latest day/month/year and
a null `last_notified_year`. -/
theorem upsert_unique_per_key (db : DB) (hnd : keysNodup db) (u : Int)
    (n : String) (d1 m1 d2 m2 : Int) (y1 y2 : Option Int)
    (ops : List UpsertOp) :
    keysNodup (applyUpserts ops db) ∧
    countKey (u, lowerAscii n) (upsert_birthday u n d1 m1 y1 db).rows = 1 ∧
    countKey (u, lowerAscii n)
      (upsert_birthday u n d2 m2 y2 (upsert_birthday u n d1 m1 y1 db)).rows
      = 1 ∧
    ∃ r ∈ (upsert_birthday u n d2 m2 y2
        (upsert_birthday u n d1 m1 y1 db)).rows,
      keyOf r = (u, lowerAscii n) ∧ r.day = d2 ∧ r.month = m2 ∧ r.year = y2 ∧
        r.last_notified_year = none := by
  have h1 : keysNodup (upsert_birthday u n d1 m1 y1 db) :=
    upsert_keysNodup u n d1 m1 y1 db hnd
  have hm1 : (u, lowerAscii n) ∈
      (upsert_birthday u n d1 m1 y1 db).rows.map keyOf :=
    upsert_key_mem u n d1 m1 y1 db
  have h2 : keysNodup
      (upsert_birthday u n d2 m2 y2 (upsert_birthday u n d1 m1 y1 db)) :=
    upsert_keysNodup u n d2 m2 y2 _ h1
  refine ⟨applyUpserts_keysNodup ops db hnd,
    countKey_eq_one _ h1 _ hm1,
    countKey_eq_one _ h2 _ (upsert_key_mem u n d2 m2 y2 _), ?_⟩
  rcases List.mem_map.1 hm1 with ⟨r1, hr1, hkey1⟩
  have hs1 : sameKey u n r1 = true := (sameKey_iff u n r1).2 hkey1
  have hany : (upsert_birthday u n d1 m1 y1 db).rows.any (sameKey u n)
      = true := List.any_eq_true.2 ⟨r1, hr1, hs1⟩
  rw [upsert_rows_conflict u n d2 m2 y2 _ hany]
  refine ⟨{ r1 with day := d2, month := m2, year := y2, last_notified_year := none }, ?_, ?_, rfl, rfl, rfl, rfl⟩
  · have := List.mem_map_of_mem (f := fun r =>
      if sameKey u n r then
        { r with day := d2, month := m2, year := y2, last_notified_year := none }
      else r) hr1
    simpa [hs1] using this
  · simpa [keyOf] using hkey1

/-- C7 witness: the theorem applied to the empty store with two upserts of
owner 7, name "Masha", dates 14.02.2004 then 01.03 (no year). -/
theorem upsert_unique_per_key_witness :
    countKey (7, lowerAscii "Masha")
      (upsert_birthday 7 "Masha" 1 3 none
        (upsert_birthday 7 "Masha" 14 2 (some 2004) init_db)).rows = 1 := by
  exact (upsert_unique_per_key init_db (by decide) 7 "Masha"
    14 2 1 3 (some 2004) none []).2.2.1

/-! ## C10: conflicting upsert keeps the stored name casing and the id -/

/-- C10: an upsert whose name collides with an existing record only
case-insensitively replaces day/month/year and resets `last_notified_year`,
but leaves the stored display name (original casing) and the record id
unchanged, and leaves every non-colliding row unchanged. -/
theorem upsert_keeps_name_and_id (db : DB) (u : Int) (n : String)
    (d m : Int) (y : Option Int) (r : Row) (hr : r ∈ db.rows)
    (hu : r.user_id = u) (hn : lowerAscii r.name = lowerAscii n)
    (hne : r.name ≠ n) :
    (upsert_birthday u n d m y db).rows = db.rows.map (fun s =>
      if sameKey u n s then
        { s with day := d, month := m, year := y, last_notified_year := none }
      else s) ∧
    { r with day := d, month := m, year := y, last_notified_year := none }
      ∈ (upsert_birthday u n d m y db).rows ∧
    ({ r with day := d, month := m, year := y, last_notified_year := none }
      : Row).name = r.name ∧
    ({ r with day := d, month := m, year := y, last_notified_year := none }
      : Row).id = r.id ∧
    ∀ s ∈ db.rows, sameKey u n s = false →
      s ∈ (upsert_birthday u n d m y db).rows := by
  have hs : sameKey u n r = true := by
    simp [sameKey, hu, hn]
  have hany : db.rows.any (sameKey u n) = true :=
    List.any_eq_true.2 ⟨r, hr, hs⟩
  have hrows := upsert_rows_conflict u n d m y db hany
  refine ⟨hrows, ?_, rfl, rfl, ?_⟩
  · rw [hrows]
    have := List.mem_map_of_mem (f := fun s =>
      if sameKey u n s then
        { s with day := d, month := m, year := y, last_notified_year := none }
      else s) hr
    simpa [hs] using this
  · intro s hsmem hsf
    rw [hrows]
    have := List.mem_map_of_mem (f := fun s =>
      if sameKey u n s then
        { s with day := d, month := m, year := y, last_notified_year := none }
      else s) hsmem
    simpa [hsf] using this

/-- C10 witness: upserting owner 7's "MARIA" over the stored "Maria" keeps
the stored casing and the id while replacing the date fields. -/
theorem upsert_keeps_name_and_id_witness :
    (⟨1, 7, "Maria", 1, 3, none, none⟩ : Row)
      ∈ (upsert_birthday 7 "MARIA" 1 3 none dbMaria).rows := by
  exact (upsert_keeps_name_and_id dbMaria 7 "MARIA" 1 3 none
    ⟨1, 7, "Maria", 14, 2, some 2004, some 2024⟩
    (by decide) (by decide) (by decide) (by decide)).2.1

/-! ## C9: delete -/

theorem sameKey_eq_beq (u : Int) (n : String) (r : Row) :
    sameKey u n r = (keyOf r == (u, lowerAscii n)) := by
  by_cases h : keyOf r = (u, lowerAscii n)
  · rw [(sameKey_iff u n r).2 h]
    simp [h]
  · have : ¬ sameKey u n r = true := fun hs => h ((sameKey_iff u n r).1 hs)
    simp only [Bool.not_eq_true] at this
    simp [this, h]

theorem filter_sameKey_len_le_one (u : Int) (n : String) (rows : List Row)
    (hnd : (rows.map keyOf).Nodup) :
    (rows.filter (sameKey u n)).length ≤ 1 := by
  have : rows.filter (sameKey u n)
      = rows.filter (fun r => keyOf r == (u, lowerAscii n)) :=
    List.filter_congr (fun r _ => sameKey_eq_beq u n r)
  rw [this]
  have hck := countKey_eq_zero rows (u, lowerAscii n)
  by_cases hmem : (u, lowerAscii n) ∈ rows.map keyOf
  · have := countKey_eq_one rows hnd _ hmem
    unfold countKey at this
    omega
  · have hz : countKey (u, lowerAscii n) rows = 0 := by
      apply countKey_eq_zero
      intro r hr hk
      exact hmem (hk ▸ List.mem_map_of_mem keyOf hr)
    unfold countKey at hz
    omega

/-- C9: delete matches case-insensitively and returns the number of removed
rows, which under the schema invariant is 0 or 1; every row that does not
match (other owners' rows, the owner's other names) survives, and when
nothing matches the store is returned unchanged with count 0. -/
theorem delete_birthday_spec (db : DB) (hnd : keysNodup db) (u : Int)
    (n : String) :
    ((delete_birthday u n db).2 = 0 ∨ (delete_birthday u n db).2 = 1) ∧
    (∀ r ∈ db.rows, sameKey u n r = false →
      r ∈ (delete_birthday u n db).1.rows) ∧
    ((∀ r ∈ db.rows, sameKey u n r = false) →
      (delete_birthday u n db).1 = db ∧ (delete_birthday u n db).2 = 0) := by
  refine ⟨?_, ?_, ?_⟩
  · have := filter_sameKey_len_le_one u n db.rows hnd
    unfold delete_birthday
    omega
  · intro r hr hf
    unfold delete_birthday
    simp only [List.mem_filter]
    exact ⟨hr, by simp [hf]⟩
  · intro hall
    have hfilter : db.rows.filter (fun r => !(sameKey u n r)) = db.rows := by
      apply List.filter_eq_self.2
      intro r hr
      simp [hall r hr]
    have hnil : db.rows.filter (sameKey u n) = [] := by
      apply List.filter_eq_nil_iff.2
      intro r hr
      simp [hall r hr]
    constructor
    · show ({ db with rows := db.rows.filter (fun r => !(sameKey u n r)) } : DB) = db
      rw [hfilter]
    · show (db.rows.filter (sameKey u n)).length = 0
      rw [hnil]
      rfl

/-- C9 witness: deleting the absent name "nobody" from the one-record store
returns 0 or 1 (here 0) without error. -/
theorem delete_birthday_spec_witness :
    (delete_birthday 7 "nobody" dbOne).2 = 0 ∨
      (delete_birthday 7 "nobody" dbOne).2 = 1 :=
  (delete_birthday_spec dbOne (by decide) 7 "nobody").1

/-! ## C8: list ordering -/

theorem charListLe_trans : ∀ a b c : List Char,
    charListLe a b = true → charListLe b c = true → charListLe a c = true
  | [], _, _, _, _ => rfl
  | _ :: _, [], _, h, _ => by simp [charListLe] at h
  | _ :: _, _ :: _, [], _, h => by simp [charListLe] at h
  | x :: xs, y :: ys, z :: zs, h1, h2 => by
    simp only [charListLe, Bool.or_eq_true, Bool.and_eq_true,
      decide_eq_true_eq] at h1 h2 ⊢
    rcases h1 with h1 | ⟨rfl, h1⟩
    · rcases h2 with h2 | ⟨rfl, h2⟩
      · exact Or.inl (lt_trans h1 h2)
      · exact Or.inl h1
    · rcases h2 with h2 | ⟨rfl, h2⟩
      · exact Or.inl h2
      · exact Or.inr ⟨rfl, charListLe_trans xs ys zs h1 h2⟩

theorem charListLe_total : ∀ a b : List Char,
    charListLe a b = true ∨ charListLe b a = true
  | [], _ => Or.inl rfl
  | _ :: _, [] => Or.inr rfl
  | x :: xs, y :: ys => by
    simp only [charListLe, Bool.or_eq_true, Bool.and_eq_true,
      decide_eq_true_eq]
    rcases lt_trichotomy x y with h | h | h
    · exact Or.inl (Or.inl h)
    · subst h
      rcases charListLe_total xs ys with h2 | h2
      · exact Or.inl (Or.inr ⟨rfl, h2⟩)
      · exact Or.inr (Or.inr ⟨rfl, h2⟩)
    · exact Or.inr (Or.inl h)

theorem listKeyLe_iff (a b : Summary) : listKeyLe a b = true ↔
    (a.month < b.month ∨ (a.month = b.month ∧ (a.day < b.day ∨
      (a.day = b.day ∧
        charListLe (lowerAscii a.name).data (lowerAscii b.name).data
          = true)))) := by
  simp [listKeyLe]

theorem listKeyLe_trans (a b c : Summary) (h1 : listKeyLe a b = true)
    (h2 : listKeyLe b c = true) : listKeyLe a c = true := by
  rw [listKeyLe_iff] at h1 h2 ⊢
  rcases h1 with h1 | ⟨hm1, h1⟩
  · rcases h2 with h2 | ⟨hm2, h2⟩
    · exact Or.inl (by omega)
    · exact Or.inl (by omega)
  · rcases h2 with h2 | ⟨hm2, h2⟩
    · exact Or.inl (by omega)
    · refine Or.inr ⟨by omega, ?_⟩
      rcases h1 with h1 | ⟨hd1, h1⟩
      · rcases h2 with h2 | ⟨hd2, h2⟩
        · exact Or.inl (by omega)
        · exact Or.inl (by omega)
      · rcases h2 with h2 | ⟨hd2, h2⟩
        · exact Or.inl (by omega)
        · exact Or.inr ⟨by omega,
            charListLe_trans _ _ _ h1 h2⟩

theorem listKeyLe_total (a b : Summary) :
    listKeyLe a b = true ∨ listKeyLe b a = true := by
  rw [listKeyLe_iff, listKeyLe_iff]
  rcases lt_trichotomy a.month b.month with h | h | h
  · exact Or.inl (Or.inl h)
  · rcases lt_trichotomy a.day b.day with h2 | h2 | h2
    · exact Or.inl (Or.inr ⟨h, Or.inl h2⟩)
    · rcases charListLe_total (lowerAscii a.name).data
        (lowerAscii b.name).data with h3 | h3
      · exact Or.inl (Or.inr ⟨h, Or.inr ⟨h2, h3⟩⟩)
      · exact Or.inr (Or.inr ⟨h.symm, Or.inr ⟨h2.symm, h3⟩⟩)
    · exact Or.inr (Or.inr ⟨h.symm, Or.inl h2⟩)
  · exact Or.inr (Or.inl h)

theorem insertLe_perm (a : Summary) :
    ∀ l : List Summary, (insertLe a l).Perm (a :: l)
  | [] => List.Perm.refl _
  | b :: bs => by
    unfold insertLe
    by_cases h : listKeyLe a b = true
    · simp [h]
    · simp only [h, if_false]
      exact ((insertLe_perm a bs).cons b).trans (List.Perm.swap a b bs)

theorem sortLe_perm : ∀ l : List Summary, (sortLe l).Perm l
  | [] => List.Perm.refl _
  | a :: as =>
    (insertLe_perm a (sortLe as)).trans ((sortLe_perm as).cons a)

theorem mem_insertLe (x a : Summary) (l : List Summary) :
    x ∈ insertLe a l ↔ x = a ∨ x ∈ l := by
  rw [(insertLe_perm a l).mem_iff, List.mem_cons]

theorem pairwise_insertLe (a : Summary) :
    ∀ l : List Summary,
      l.Pairwise (fun x y => listKeyLe x y = true) →
      (insertLe a l).Pairwise (fun x y => listKeyLe x y = true)
  | [], _ => by simp [insertLe]
  | b :: bs, h => by
    rw [List.pairwise_cons] at h
    rcases h with ⟨hb, hbs⟩
    unfold insertLe
    by_cases hab : listKeyLe a b = true
    · simp only [hab, if_true]
      rw [List.pairwise_cons]
      refine ⟨?_, List.pairwise_cons.2 ⟨hb, hbs⟩⟩
      intro x hx
      rcases List.mem_cons.1 hx with rfl | hx
      · exact hab
      · exact listKeyLe_trans a b x hab (hb x hx)
    · rw [if_neg hab]
      rw [List.pairwise_cons]
      refine ⟨?_, pairwise_insertLe a bs hbs⟩
      intro x hx
      rcases (mem_insertLe x a bs).1 hx with rfl | hx
      · rcases listKeyLe_total x b with h | h
        · exact absurd h hab
        · exact h
      · exact hb x hx

theorem pairwise_sortLe : ∀ l : List Summary,
    (sortLe l).Pairwise (fun x y => listKeyLe x y = true)
  | [] => List.Pairwise.nil
  | a :: as => pairwise_insertLe a (sortLe as) (pairwise_sortLe as)

/-- C8: for every owner, `list_birthdays` returns exactly the owner's record
summaries (name, day, month, year — the other columns are not selected),
sorted by month, then day, then case-folded name; on records dated
(day, month) = (3,5), (1,5), (1,1) the order comes back (1,1), (1,5), (3,5). -/
theorem list_birthdays_spec (u : Int) (db : DB) :
    (list_birthdays u db).Pairwise (fun a b => listKeyLe a b = true) ∧
    (list_birthdays u db).Perm
      ((db.rows.filter (fun r => r.user_id == u)).map summaryOf) ∧
    list_birthdays 7 dbThree =
      [⟨"c", 1, 1, none⟩, ⟨"b", 1, 5, none⟩, ⟨"a", 3, 5, none⟩] :=
  ⟨pairwise_sortLe _, sortLe_perm _, by decide⟩

/-! ## Sweep lemmas: database patching -/

theorem set_lny_rows (i y : Int) (db : DB) :
    (set_last_notified_year i y db).rows = db.rows.map (fun r =>
      if r.id = i then { r with last_notified_year := some y } else r) := rfl

theorem patchMarks_nil (r : Row) : patchMarks [] r = r := rfl

theorem patchMarks_cons (p : Int × Int) (ms : List (Int × Int)) (r : Row) :
    patchMarks (p :: ms) r =
      patchMarks ms
        (if r.id = p.1 then { r with last_notified_year := some p.2 } else r) :=
  rfl

theorem patchMarks_keeps : ∀ (ms : List (Int × Int)) (r : Row),
    (patchMarks ms r).id = r.id ∧ (patchMarks ms r).user_id = r.user_id ∧
    (patchMarks ms r).day = r.day ∧ (patchMarks ms r).month = r.month
  | [], _ => ⟨rfl, rfl, rfl, rfl⟩
  | p :: ms, r => by
    rw [patchMarks_cons]
    by_cases h : r.id = p.1
    · rw [if_pos h]
      exact patchMarks_keeps ms { r with last_notified_year := some p.2 }
    · rw [if_neg h]
      exact patchMarks_keeps ms r

theorem patchMarks_not_mem : ∀ (ms : List (Int × Int)) (r : Row),
    r.id ∉ ms.map Prod.fst → patchMarks ms r = r
  | [], _, _ => rfl
  | p :: ms, r, h => by
    rw [List.map_cons, List.mem_cons] at h
    push_neg at h
    rw [patchMarks_cons, if_neg h.1]
    exact patchMarks_not_mem ms r h.2

theorem applyMarks_nil (db : DB) : applyMarks [] db = db := rfl

theorem applyMarks_cons (p : Int × Int) (ms : List (Int × Int)) (db : DB) :
    applyMarks (p :: ms) db =
      applyMarks ms (set_last_notified_year p.1 p.2 db) := rfl

theorem applyMarks_rows : ∀ (ms : List (Int × Int)) (db : DB),
    (applyMarks ms db).rows = db.rows.map (patchMarks ms)
  | [], db => by
    rw [applyMarks_nil]
    exact (List.map_id db.rows).symm.trans
      (List.map_congr_left (fun r _ => rfl))
  | p :: ms, db => by
    rw [applyMarks_cons, applyMarks_rows ms, set_lny_rows, List.map_map]
    exact List.map_congr_left (fun r _ => rfl)

/-- A no-op patch: every mark hitting this row's id writes the value the row
already holds. -/
theorem patchMarks_noop : ∀ (ms : List (Int × Int)) (r : Row),
    (∀ p ∈ ms, p.1 = r.id → some p.2 = r.last_notified_year) →
    patchMarks ms r = r
  | [], _, _ => rfl
  | p :: ms, r, h => by
    rw [patchMarks_cons]
    by_cases hid : r.id = p.1
    · have hv : some p.2 = r.last_notified_year :=
        h p (List.mem_cons_self p ms) hid.symm
      have : ({ r with last_notified_year := some p.2 } : Row) = r := by
        cases r
        simp_all
      rw [if_pos hid, this]
      exact patchMarks_noop ms r (fun q hq hq1 => h q (List.mem_cons_of_mem p hq) hq1)
    · rw [if_neg hid]
      exact patchMarks_noop ms r (fun q hq hq1 => h q (List.mem_cons_of_mem p hq) hq1)

/-- A mark list whose entries for this row's id all carry the value `y`,
including at least one such entry, rewrites the row's `last_notified_year`
to `y`. -/
theorem patchMarks_mark : ∀ (ms : List (Int × Int)) (r : Row) (y : Int),
    (r.id, y) ∈ ms → (∀ p ∈ ms, p.1 = r.id → p.2 = y) →
    patchMarks ms r = { r with last_notified_year := some y }
  | [], _, _, hmem, _ => by simp at hmem
  | p :: ms, r, y, hmem, huni => by
    rw [patchMarks_cons]
    by_cases hid : r.id = p.1
    · have hv : p.2 = y := huni p (List.mem_cons_self p ms) hid.symm
      rw [if_pos hid, hv]
      apply patchMarks_noop
      intro q hq hq1
      have : q.2 = y := huni q (List.mem_cons_of_mem p hq) (by simpa using hq1)
      simp [this]
    · rw [if_neg hid]
      have hmem' : (r.id, y) ∈ ms := by
        rcases List.mem_cons.1 hmem with he | hm
        · exact absurd (show r.id = p.1 from congrArg Prod.fst he) hid
        · exact hm
      exact patchMarks_mark ms r y hmem'
        (fun q hq hq1 => huni q (List.mem_cons_of_mem p hq) hq1)

/-! ## Sweep lemmas: one-step unfoldings of the record loop -/

theorem sweepUser_cons_crash (ok : Int → Int → Bool) (today : PyDate)
    (u : Int) (b : Row) (rest : List Row)
    (hocc : next_occurrence b.day b.month today = none) :
    sweepUser ok today u (b :: rest) = ([], [], true) := by
  simp [sweepUser, hocc]

theorem sweepUser_cons_far (ok : Int → Int → Bool) (today : PyDate)
    (u : Int) (b : Row) (rest : List Row) (occ : PyDate)
    (hocc : next_occurrence b.day b.month today = some occ)
    (h1 : ¬(0 ≤ dateSubDays occ today ∧ dateSubDays occ today ≤ DAYS_BEFORE)) :
    sweepUser ok today u (b :: rest) = sweepUser ok today u rest := by
  simp [sweepUser, hocc, h1]

theorem sweepUser_cons_notified (ok : Int → Int → Bool) (today : PyDate)
    (u : Int) (b : Row) (rest : List Row) (occ : PyDate)
    (hocc : next_occurrence b.day b.month today = some occ)
    (h1 : 0 ≤ dateSubDays occ today ∧ dateSubDays occ today ≤ DAYS_BEFORE)
    (h2 : b.last_notified_year = some occ.year) :
    sweepUser ok today u (b :: rest) = sweepUser ok today u rest := by
  simp [sweepUser, hocc, h1.1, h1.2, h2]

theorem sweepUser_cons_send_ok (ok : Int → Int → Bool) (today : PyDate)
    (u : Int) (b : Row) (rest : List Row) (occ : PyDate)
    (hocc : next_occurrence b.day b.month today = some occ)
    (h1 : 0 ≤ dateSubDays occ today ∧ dateSubDays occ today ≤ DAYS_BEFORE)
    (h2 : b.last_notified_year ≠ some occ.year)
    (h3 : ok u b.id = true) :
    sweepUser ok today u (b :: rest) =
      ((u, b.id, dateSubDays occ today) :: (sweepUser ok today u rest).1,
       (b.id, occ.year) :: (sweepUser ok today u rest).2.1,
       (sweepUser ok today u rest).2.2) := by
  simp [sweepUser, hocc, h1.1, h1.2, h2, h3]

theorem sweepUser_cons_send_fail (ok : Int → Int → Bool) (today : PyDate)
    (u : Int) (b : Row) (rest : List Row) (occ : PyDate)
    (hocc : next_occurrence b.day b.month today = some occ)
    (h1 : 0 ≤ dateSubDays occ today ∧ dateSubDays occ today ≤ DAYS_BEFORE)
    (h2 : b.last_notified_year ≠ some occ.year)
    (h3 : ok u b.id = false) :
    sweepUser ok today u (b :: rest) =
      ((u, b.id, dateSubDays occ today) :: (sweepUser ok today u rest).1,
       (sweepUser ok today u rest).2.1,
       (sweepUser ok today u rest).2.2) := by
  simp [sweepUser, hocc, h1.1, h1.2, h2, h3]

theorem processRecs_cons_crash (ok : Int → Int → Bool) (today : PyDate)
    (u : Int) (b : Row) (rest : List Row) (db : DB)
    (hocc : next_occurrence b.day b.month today = none) :
    processRecs ok today u (b :: rest) db = (db, [], true) := by
  simp [processRecs, hocc]

theorem processRecs_cons_far (ok : Int → Int → Bool) (today : PyDate)
    (u : Int) (b : Row) (rest : List Row) (db : DB) (occ : PyDate)
    (hocc : next_occurrence b.day b.month today = some occ)
    (h1 : ¬(0 ≤ dateSubDays occ today ∧ dateSubDays occ today ≤ DAYS_BEFORE)) :
    processRecs ok today u (b :: rest) db = processRecs ok today u rest db := by
  simp [processRecs, hocc, h1]

theorem processRecs_cons_notified (ok : Int → Int → Bool) (today : PyDate)
    (u : Int) (b : Row) (rest : List Row) (db : DB) (occ : PyDate)
    (hocc : next_occurrence b.day b.month today = some occ)
    (h1 : 0 ≤ dateSubDays occ today ∧ dateSubDays occ today ≤ DAYS_BEFORE)
    (h2 : b.last_notified_year = some occ.year) :
    processRecs ok today u (b :: rest) db = processRecs ok today u rest db := by
  simp [processRecs, hocc, h1.1, h1.2, h2]

theorem processRecs_cons_send_ok (ok : Int → Int → Bool) (today : PyDate)
    (u : Int) (b : Row) (rest : List Row) (db : DB) (occ : PyDate)
    (hocc : next_occurrence b.day b.month today = some occ)
    (h1 : 0 ≤ dateSubDays occ today ∧ dateSubDays occ today ≤ DAYS_BEFORE)
    (h2 : b.last_notified_year ≠ some occ.year)
    (h3 : ok u b.id = true) :
    processRecs ok today u (b :: rest) db =
      ((processRecs ok today u rest
          (set_last_notified_year b.id occ.year db)).1,
       (u, b.id, dateSubDays occ today) ::
         (processRecs ok today u rest
           (set_last_notified_year b.id occ.year db)).2.1,
       (processRecs ok today u rest
         (set_last_notified_year b.id occ.year db)).2.2) := by
  simp [processRecs, hocc, h1.1, h1.2, h2, h3]

theorem processRecs_cons_send_fail (ok : Int → Int → Bool) (today : PyDate)
    (u : Int) (b : Row) (rest : List Row) (db : DB) (occ : PyDate)
    (hocc : next_occurrence b.day b.month today = some occ)
    (h1 : 0 ≤ dateSubDays occ today ∧ dateSubDays occ today ≤ DAYS_BEFORE)
    (h2 : b.last_notified_year ≠ some occ.year)
    (h3 : ok u b.id = false) :
    processRecs ok today u (b :: rest) db =
      ((processRecs ok today u rest db).1,
       (u, b.id, dateSubDays occ today) ::
         (processRecs ok today u rest db).2.1,
       (processRecs ok today u rest db).2.2) := by
  simp [processRecs, hocc, h1.1, h1.2, h2, h3]

/-- The threaded record loop is the pure per-user description applied to the
snapshot: the final database is the starting one with the marks applied, and
the sends and crash flag coincide. -/
theorem processRecs_eq_sweepUser (ok : Int → Int → Bool) (today : PyDate)
    (u : Int) : ∀ (recs : List Row) (db : DB),
    processRecs ok today u recs db =
      (applyMarks (sweepUser ok today u recs).2.1 db,
       (sweepUser ok today u recs).1, (sweepUser ok today u recs).2.2)
  | [], db => by simp [processRecs, sweepUser, applyMarks_nil]
  | b :: rest, db => by
    cases hocc : next_occurrence b.day b.month today with
    | none =>
      rw [processRecs_cons_crash ok today u b rest db hocc,
        sweepUser_cons_crash ok today u b rest hocc, applyMarks_nil]
    | some occ =>
      by_cases h1 : 0 ≤ dateSubDays occ today ∧ dateSubDays occ today ≤ DAYS_BEFORE
      · by_cases h2 : b.last_notified_year = some occ.year
        · rw [processRecs_cons_notified ok today u b rest db occ hocc h1 h2,
            sweepUser_cons_notified ok today u b rest occ hocc h1 h2]
          exact processRecs_eq_sweepUser ok today u rest db
        · cases h3 : ok u b.id with
          | true =>
            rw [processRecs_cons_send_ok ok today u b rest db occ hocc h1 h2 h3,
              sweepUser_cons_send_ok ok today u b rest occ hocc h1 h2 h3,
              processRecs_eq_sweepUser ok today u rest
                (set_last_notified_year b.id occ.year db),
              applyMarks_cons]
          | false =>
            rw [processRecs_cons_send_fail ok today u b rest db occ hocc h1 h2 h3,
              sweepUser_cons_send_fail ok today u b rest occ hocc h1 h2 h3,
              processRecs_eq_sweepUser ok today u rest db]
      · rw [processRecs_cons_far ok today u b rest db occ hocc h1,
          sweepUser_cons_far ok today u b rest occ hocc h1]
        exact processRecs_eq_sweepUser ok today u rest db

/-! ## Sweep lemmas: `countId` arithmetic -/

theorem countId_nil (i : Int) : countId i [] = 0 := rfl

theorem countId_cons (i : Int) (s : Send) (l : List Send) :
    countId i (s :: l) = (if s.2.1 = i then 1 else 0) + countId i l := by
  by_cases h : s.2.1 = i
  · simp [countId, List.filter_cons, h, Nat.add_comm]
  · simp [countId, List.filter_cons, h]

theorem countId_append (i : Int) (l1 l2 : List Send) :
    countId i (l1 ++ l2) = countId i l1 + countId i l2 := by
  simp [countId, List.filter_append]

theorem countId_eq_zero (i : Int) (l : List Send)
    (h : ∀ s ∈ l, s.2.1 ≠ i) : countId i l = 0 := by
  unfold countId
  have : l.filter (fun t => t.2.1 == i) = [] := by
    apply List.filter_eq_nil_iff.2
    intro s hs
    simp [h s hs]
  rw [this]
  rfl

/-! ## Sweep lemmas: per-user soundness, completeness, counting -/

theorem sweepUser_sends_sound (ok : Int → Int → Bool) (today : PyDate)
    (u : Int) : ∀ (recs : List Row) (s : Send),
    s ∈ (sweepUser ok today u recs).1 →
    s.1 = u ∧ ∃ b ∈ recs, s.2.1 = b.id ∧ attemptCond today b s.2.2
  | [], s, hs => by simp [sweepUser] at hs
  | b :: rest, s, hs => by
    cases hocc : next_occurrence b.day b.month today with
    | none =>
      rw [sweepUser_cons_crash ok today u b rest hocc] at hs
      simp at hs
    | some occ =>
      by_cases h1 : 0 ≤ dateSubDays occ today ∧
          dateSubDays occ today ≤ DAYS_BEFORE
      · by_cases h2 : b.last_notified_year = some occ.year
        · rw [sweepUser_cons_notified ok today u b rest occ hocc h1 h2] at hs
          rcases sweepUser_sends_sound ok today u rest s hs with
            ⟨ha, c, hc, hcid, hac⟩
          exact ⟨ha, c, List.mem_cons_of_mem b hc, hcid, hac⟩
        · cases h3 : ok u b.id with
          | true =>
            rw [sweepUser_cons_send_ok ok today u b rest occ hocc h1 h2 h3]
              at hs
            rcases List.mem_cons.1 hs with rfl | hs
            · exact ⟨rfl, b, List.mem_cons_self b rest, rfl,
                occ, hocc, rfl, h1.1, h1.2, h2⟩
            · rcases sweepUser_sends_sound ok today u rest s hs with
                ⟨ha, c, hc, hcid, hac⟩
              exact ⟨ha, c, List.mem_cons_of_mem b hc, hcid, hac⟩
          | false =>
            rw [sweepUser_cons_send_fail ok today u b rest occ hocc h1 h2 h3]
              at hs
            rcases List.mem_cons.1 hs with rfl | hs
            · exact ⟨rfl, b, List.mem_cons_self b rest, rfl,
                occ, hocc, rfl, h1.1, h1.2, h2⟩
            · rcases sweepUser_sends_sound ok today u rest s hs with
                ⟨ha, c, hc, hcid, hac⟩
              exact ⟨ha, c, List.mem_cons_of_mem b hc, hcid, hac⟩
      · rw [sweepUser_cons_far ok today u b rest occ hocc h1] at hs
        rcases sweepUser_sends_sound ok today u rest s hs with
          ⟨ha, c, hc, hcid, hac⟩
        exact ⟨ha, c, List.mem_cons_of_mem b hc, hcid, hac⟩

theorem sweepUser_marks_sound (ok : Int → Int → Bool) (today : PyDate)
    (u : Int) : ∀ (recs : List Row) (p : Int × Int),
    p ∈ (sweepUser ok today u recs).2.1 →
    ∃ b ∈ recs, p.1 = b.id ∧ ok u b.id = true ∧
      ∃ occ, next_occurrence b.day b.month today = some occ ∧ p.2 = occ.year
  | [], p, hp => by simp [sweepUser] at hp
  | b :: rest, p, hp => by
    cases hocc : next_occurrence b.day b.month today with
    | none =>
      rw [sweepUser_cons_crash ok today u b rest hocc] at hp
      simp at hp
    | some occ =>
      by_cases h1 : 0 ≤ dateSubDays occ today ∧
          dateSubDays occ today ≤ DAYS_BEFORE
      · by_cases h2 : b.last_notified_year = some occ.year
        · rw [sweepUser_cons_notified ok today u b rest occ hocc h1 h2] at hp
          rcases sweepUser_marks_sound ok today u rest p hp with
            ⟨c, hc, hcid, hcok, hrest⟩
          exact ⟨c, List.mem_cons_of_mem b hc, hcid, hcok, hrest⟩
        · cases h3 : ok u b.id with
          | true =>
            rw [sweepUser_cons_send_ok ok today u b rest occ hocc h1 h2 h3]
              at hp
            rcases List.mem_cons.1 hp with rfl | hp
            · exact ⟨b, List.mem_cons_self b rest, rfl, h3, occ, hocc, rfl⟩
            · rcases sweepUser_marks_sound ok today u rest p hp with
                ⟨c, hc, hcid, hcok, hrest⟩
              exact ⟨c, List.mem_cons_of_mem b hc, hcid, hcok, hrest⟩
          | false =>
            rw [sweepUser_cons_send_fail ok today u b rest occ hocc h1 h2 h3]
              at hp
            rcases sweepUser_marks_sound ok today u rest p hp with
              ⟨c, hc, hcid, hcok, hrest⟩
            exact ⟨c, List.mem_cons_of_mem b hc, hcid, hcok, hrest⟩
      · rw [sweepUser_cons_far ok today u b rest occ hocc h1] at hp
        rcases sweepUser_marks_sound ok today u rest p hp with
          ⟨c, hc, hcid, hcok, hrest⟩
        exact ⟨c, List.mem_cons_of_mem b hc, hcid, hcok, hrest⟩

theorem sweepUser_nocrash (ok : Int → Int → Bool) (today : PyDate)
    (u : Int) : ∀ (recs : List Row),
    (∀ c ∈ recs, (next_occurrence c.day c.month today).isSome) →
    (sweepUser ok today u recs).2.2 = false
  | [], _ => rfl
  | b :: rest, h => by
    have htail := sweepUser_nocrash ok today u rest
      (fun c hc => h c (List.mem_cons_of_mem b hc))
    cases hocc : next_occurrence b.day b.month today with
    | none =>
      have := h b (List.mem_cons_self b rest)
      rw [hocc] at this
      simp at this
    | some occ =>
      by_cases h1 : 0 ≤ dateSubDays occ today ∧
          dateSubDays occ today ≤ DAYS_BEFORE
      · by_cases h2 : b.last_notified_year = some occ.year
        · rw [sweepUser_cons_notified ok today u b rest occ hocc h1 h2]
          exact htail
        · cases h3 : ok u b.id with
          | true =>
            rw [sweepUser_cons_send_ok ok today u b rest occ hocc h1 h2 h3]
            exact htail
          | false =>
            rw [sweepUser_cons_send_fail ok today u b rest occ hocc h1 h2 h3]
            exact htail
      · rw [sweepUser_cons_far ok today u b rest occ hocc h1]
        exact htail

theorem sweepUser_complete (ok : Int → Int → Bool) (today : PyDate)
    (u : Int) : ∀ (recs : List Row),
    (∀ c ∈ recs, (next_occurrence c.day c.month today).isSome) →
    ∀ b ∈ recs, ∀ occ : PyDate, next_occurrence b.day b.month today = some occ →
    0 ≤ dateSubDays occ today → dateSubDays occ today ≤ DAYS_BEFORE →
    b.last_notified_year ≠ some occ.year →
    (u, b.id, dateSubDays occ today) ∈ (sweepUser ok today u recs).1
  | [], _, b, hb, _, _, _, _, _ => by simp at hb
  | c :: rest, hcr, b, hb, occ, hocc, hd0, hd3, hlny => by
    rcases List.mem_cons.1 hb with rfl | hb
    · cases h3 : ok u b.id with
      | true =>
        rw [sweepUser_cons_send_ok ok today u b rest occ hocc ⟨hd0, hd3⟩
          hlny h3]
        exact List.mem_cons_self _ _
      | false =>
        rw [sweepUser_cons_send_fail ok today u b rest occ hocc ⟨hd0, hd3⟩
          hlny h3]
        exact List.mem_cons_self _ _
    · have htail := sweepUser_complete ok today u rest
        (fun x hx => hcr x (List.mem_cons_of_mem c hx)) b hb occ hocc hd0
        hd3 hlny
      have hcs := hcr c (List.mem_cons_self c rest)
      rcases Option.isSome_iff_exists.1 hcs with ⟨occ2, hocc2⟩
      by_cases h1 : 0 ≤ dateSubDays occ2 today ∧
          dateSubDays occ2 today ≤ DAYS_BEFORE
      · by_cases h2 : c.last_notified_year = some occ2.year
        · rw [sweepUser_cons_notified ok today u c rest occ2 hocc2 h1 h2]
          exact htail
        · cases h3 : ok u c.id with
          | true =>
            rw [sweepUser_cons_send_ok ok today u c rest occ2 hocc2 h1 h2 h3]
            exact List.mem_cons_of_mem _ htail
          | false =>
            rw [sweepUser_cons_send_fail ok today u c rest occ2 hocc2 h1
              h2 h3]
            exact List.mem_cons_of_mem _ htail
      · rw [sweepUser_cons_far ok today u c rest occ2 hocc2 h1]
        exact htail

theorem sweepUser_mark_mem (ok : Int → Int → Bool) (today : PyDate)
    (u : Int) : ∀ (recs : List Row),
    (∀ c ∈ recs, (next_occurrence c.day c.month today).isSome) →
    ∀ b ∈ recs, ∀ occ : PyDate, next_occurrence b.day b.month today = some occ →
    0 ≤ dateSubDays occ today → dateSubDays occ today ≤ DAYS_BEFORE →
    b.last_notified_year ≠ some occ.year → ok u b.id = true →
    (b.id, occ.year) ∈ (sweepUser ok today u recs).2.1
  | [], _, b, hb, _, _, _, _, _, _ => by simp at hb
  | c :: rest, hcr, b, hb, occ, hocc, hd0, hd3, hlny, hok => by
    rcases List.mem_cons.1 hb with rfl | hb
    · rw [sweepUser_cons_send_ok ok today u b rest occ hocc ⟨hd0, hd3⟩
        hlny hok]
      exact List.mem_cons_self _ _
    · have htail := sweepUser_mark_mem ok today u rest
        (fun x hx => hcr x (List.mem_cons_of_mem c hx)) b hb occ hocc hd0
        hd3 hlny hok
      have hcs := hcr c (List.mem_cons_self c rest)
      rcases Option.isSome_iff_exists.1 hcs with ⟨occ2, hocc2⟩
      by_cases h1 : 0 ≤ dateSubDays occ2 today ∧
          dateSubDays occ2 today ≤ DAYS_BEFORE
      · by_cases h2 : c.last_notified_year = some occ2.year
        · rw [sweepUser_cons_notified ok today u c rest occ2 hocc2 h1 h2]
          exact htail
        · cases h3 : ok u c.id with
          | true =>
            rw [sweepUser_cons_send_ok ok today u c rest occ2 hocc2 h1 h2 h3]
            exact List.mem_cons_of_mem _ htail
          | false =>
            rw [sweepUser_cons_send_fail ok today u c rest occ2 hocc2 h1
              h2 h3]
            exact htail
      · rw [sweepUser_cons_far ok today u c rest occ2 hocc2 h1]
        exact htail

theorem sweepUser_countId_one (ok : Int → Int → Bool) (today : PyDate)
    (u : Int) : ∀ (recs : List Row),
    (recs.map (fun r => r.id)).Nodup →
    (∀ c ∈ recs, (next_occurrence c.day c.month today).isSome) →
    ∀ b ∈ recs, ∀ occ : PyDate, next_occurrence b.day b.month today = some occ →
    0 ≤ dateSubDays occ today → dateSubDays occ today ≤ DAYS_BEFORE →
    b.last_notified_year ≠ some occ.year →
    countId b.id (sweepUser ok today u recs).1 = 1
  | [], _, _, b, hb, _, _, _, _, _ => by simp at hb
  | c :: rest, hnd, hcr, b, hb, occ, hocc, hd0, hd3, hlny => by
    rw [List.map_cons, List.nodup_cons] at hnd
    rcases hnd with ⟨hnotin, hndrest⟩
    rcases List.mem_cons.1 hb with rfl | hb
    · have hzero : countId b.id (sweepUser ok today u rest).1 = 0 := by
        apply countId_eq_zero
        intro s hs hsid
        rcases sweepUser_sends_sound ok today u rest s hs with
          ⟨_, d, hd, hdid, _⟩
        exact hnotin (by
          rw [← hsid, hdid] at *
          exact hdid ▸ List.mem_map_of_mem (fun r => r.id) hd)
      cases h3 : ok u b.id with
      | true =>
        rw [sweepUser_cons_send_ok ok today u b rest occ hocc ⟨hd0, hd3⟩
          hlny h3, countId_cons]
        simp [hzero]
      | false =>
        rw [sweepUser_cons_send_fail ok today u b rest occ hocc ⟨hd0, hd3⟩
          hlny h3, countId_cons]
        simp [hzero]
    · have hcid : c.id ≠ b.id := fun he =>
        hnotin (he ▸ List.mem_map_of_mem (fun r => r.id) hb)
      have htail := sweepUser_countId_one ok today u rest hndrest
        (fun x hx => hcr x (List.mem_cons_of_mem c hx)) b hb occ hocc hd0
        hd3 hlny
      have hcs := hcr c (List.mem_cons_self c rest)
      rcases Option.isSome_iff_exists.1 hcs with ⟨occ2, hocc2⟩
      by_cases h1 : 0 ≤ dateSubDays occ2 today ∧
          dateSubDays occ2 today ≤ DAYS_BEFORE
      · by_cases h2 : c.last_notified_year = some occ2.year
        · rw [sweepUser_cons_notified ok today u c rest occ2 hocc2 h1 h2]
          exact htail
        · cases h3 : ok u c.id with
          | true =>
            rw [sweepUser_cons_send_ok ok today u c rest occ2 hocc2 h1 h2 h3,
              countId_cons]
            simp [hcid, htail]
          | false =>
            rw [sweepUser_cons_send_fail ok today u c rest occ2 hocc2 h1
              h2 h3, countId_cons]
            simp [hcid, htail]
      · rw [sweepUser_cons_far ok today u c rest occ2 hocc2 h1]
        exact htail

/-! ## Sweep lemmas: database facts across marks -/

theorem rowIds_applyMarks (ms : List (Int × Int)) (db : DB) :
    rowIds (applyMarks ms db) = rowIds db := by
  unfold rowIds
  rw [applyMarks_rows, List.map_map]
  exact List.map_congr_left (fun r _ => (patchMarks_keeps ms r).1)

theorem noCrash_applyMarks (today : PyDate) (ms : List (Int × Int)) (db : DB)
    (h : noCrash today db) : noCrash today (applyMarks ms db) := by
  intro r hr
  rw [applyMarks_rows] at hr
  rcases List.mem_map.1 hr with ⟨r0, hr0, rfl⟩
  rcases patchMarks_keeps ms r0 with ⟨_, _, hd, hm⟩
  rw [hd, hm]
  exact h r0 hr0

theorem mem_snapshot (u : Int) (db : DB) (r : Row) :
    r ∈ get_birthdays_for_user u db ↔ r ∈ db.rows ∧ r.user_id = u := by
  simp [get_birthdays_for_user, List.mem_filter]

theorem snapshot_noCrash (today : PyDate) (u : Int) (db : DB)
    (h : noCrash today db) :
    ∀ c ∈ get_birthdays_for_user u db,
      (next_occurrence c.day c.month today).isSome :=
  fun c hc => h c ((mem_snapshot u db c).1 hc).1

theorem snapshot_ids_nodup (db : DB) (h : (rowIds db).Nodup) (u : Int) :
    ((get_birthdays_for_user u db).map (fun r => r.id)).Nodup := by
  have hsub : List.Sublist (get_birthdays_for_user u db) db.rows :=
    List.filter_sublist _
  exact List.Nodup.sublist (hsub.map (fun r => r.id)) h

theorem rows_id_inj (db : DB) (h : (rowIds db).Nodup) :
    ∀ r1 ∈ db.rows, ∀ r2 ∈ db.rows, r1.id = r2.id → r1 = r2 :=
  fun r1 h1 r2 h2 he => List.inj_on_of_nodup_map h h1 h2 he

/-- A mark written while sweeping user `u` carries the id of one of `u`'s own
rows, whose delivery succeeded. -/
theorem snapshot_mark_user (ok : Int → Int → Bool) (today : PyDate)
    (u : Int) (db : DB) (p : Int × Int)
    (hp : p ∈ (sweepUser ok today u (get_birthdays_for_user u db)).2.1) :
    ∃ r ∈ db.rows, r.user_id = u ∧ p.1 = r.id ∧ ok u r.id = true := by
  rcases sweepUser_marks_sound ok today u _ p hp with ⟨c, hc, hcid, hcok, _⟩
  rcases (mem_snapshot u db c).1 hc with ⟨hcr, hcu⟩
  exact ⟨c, hcr, hcu, hcid, hcok⟩

/-- Sweeping user `u` leaves every row of any other owner untouched. -/
theorem patch_marks_other_user (ok : Int → Int → Bool) (today : PyDate)
    (u : Int) (db : DB) (hnd : (rowIds db).Nodup) (r : Row)
    (hr : r ∈ db.rows) (hru : r.user_id ≠ u) :
    patchMarks (sweepUser ok today u (get_birthdays_for_user u db)).2.1 r
      = r := by
  apply patchMarks_not_mem
  intro hmem
  rcases List.mem_map.1 hmem with ⟨p, hp, hpid⟩
  rcases snapshot_mark_user ok today u db p hp with ⟨c, hcr, hcu, hcid, _⟩
  have hceq : c = r := rows_id_inj db hnd c hcr r hr (by rw [← hcid, hpid])
  exact hru (hceq ▸ hcu)

/-- Sweeping a row's own user writes no mark for that row when its delivery
fails. -/
theorem patch_marks_failed (ok : Int → Int → Bool) (today : PyDate)
    (db : DB) (hnd : (rowIds db).Nodup) (b : Row) (hb : b ∈ db.rows)
    (hfail : ok b.user_id b.id = false) :
    patchMarks (sweepUser ok today b.user_id
      (get_birthdays_for_user b.user_id db)).2.1 b = b := by
  apply patchMarks_not_mem
  intro hmem
  rcases List.mem_map.1 hmem with ⟨p, hp, hpid⟩
  rcases snapshot_mark_user ok today b.user_id db p hp with
    ⟨c, hcr, hcu, hcid, hcok⟩
  have hcb : c = b := rows_id_inj db hnd c hcr b hb (by rw [← hcid, hpid])
  rw [hcb] at hcok
  rw [hcok] at hfail
  exact Bool.noConfusion hfail

/-! ## Sweep lemmas: the user loop -/

theorem usersLoop_nil (ok : Int → Int → Bool) (today : PyDate) (db : DB) :
    usersLoop ok today [] db = (db, [], false) := rfl

theorem usersLoop_cons_crash (ok : Int → Int → Bool) (today : PyDate)
    (u : Int) (us : List Int) (db : DB)
    (hc : (sweepUser ok today u (get_birthdays_for_user u db)).2.2 = true) :
    usersLoop ok today (u :: us) db =
      (applyMarks
        (sweepUser ok today u (get_birthdays_for_user u db)).2.1 db,
       (sweepUser ok today u (get_birthdays_for_user u db)).1, true) := by
  simp [usersLoop, processRecs_eq_sweepUser, hc]

theorem usersLoop_cons_ok (ok : Int → Int → Bool) (today : PyDate)
    (u : Int) (us : List Int) (db : DB)
    (hc : (sweepUser ok today u (get_birthdays_for_user u db)).2.2 = false) :
    usersLoop ok today (u :: us) db =
      ((usersLoop ok today us (applyMarks
          (sweepUser ok today u (get_birthdays_for_user u db)).2.1 db)).1,
       (sweepUser ok today u (get_birthdays_for_user u db)).1 ++
         (usersLoop ok today us (applyMarks
           (sweepUser ok today u (get_birthdays_for_user u db)).2.1 db)).2.1,
       (usersLoop ok today us (applyMarks
         (sweepUser ok today u (get_birthdays_for_user u db)).2.1 db)).2.2)
    := by
  simp [usersLoop, processRecs_eq_sweepUser, hc]

theorem usersLoop_sends_sound (ok : Int → Int → Bool) (today : PyDate) :
    ∀ (us : List Int) (db : DB), (rowIds db).Nodup → us.Nodup →
    ∀ s ∈ (usersLoop ok today us db).2.1,
      s.1 ∈ us ∧ ∃ r ∈ db.rows, r.user_id = s.1 ∧ r.id = s.2.1 ∧
        attemptCond today r s.2.2
  | [], db, _, _, s, hs => by simp [usersLoop_nil] at hs
  | u :: us, db, hnd, hus, s, hs => by
    rw [List.nodup_cons] at hus
    rcases hus with ⟨hunotin, husnd⟩
    cases hcrash :
        (sweepUser ok today u (get_birthdays_for_user u db)).2.2 with
    | true =>
      rw [usersLoop_cons_crash ok today u us db hcrash] at hs
      rcases sweepUser_sends_sound ok today u _ s hs with
        ⟨hsu, c, hc, hcid, hac⟩
      rcases (mem_snapshot u db c).1 hc with ⟨hcr, hcu⟩
      exact ⟨by rw [hsu]; exact List.mem_cons_self u us,
        c, hcr, by rw [hcu, hsu], hcid.symm, hac⟩
    | false =>
      rw [usersLoop_cons_ok ok today u us db hcrash] at hs
      rcases List.mem_append.1 hs with hs | hs
      · rcases sweepUser_sends_sound ok today u _ s hs with
          ⟨hsu, c, hc, hcid, hac⟩
        rcases (mem_snapshot u db c).1 hc with ⟨hcr, hcu⟩
        exact ⟨by rw [hsu]; exact List.mem_cons_self u us,
          c, hcr, by rw [hcu, hsu], hcid.symm, hac⟩
      · have hnd' : (rowIds (applyMarks
            (sweepUser ok today u (get_birthdays_for_user u db)).2.1 db)).Nodup := by
          rw [rowIds_applyMarks]
          exact hnd
        rcases usersLoop_sends_sound ok today us _ hnd' husnd s hs with
          ⟨hsin, r', hr', hru', hrid', hac'⟩
        rw [applyMarks_rows] at hr'
        rcases List.mem_map.1 hr' with ⟨r0, hr0, hr0eq⟩
        have hr0user : r0.user_id ≠ u := by
          intro he
          have hs1u : s.1 = u := by
            rw [← hru', ← hr0eq, (patchMarks_keeps _ r0).2.1, he]
          exact hunotin (hs1u ▸ hsin)
        have hnoop := patch_marks_other_user ok today u db hnd r0 hr0 hr0user
        rw [hnoop] at hr0eq
        subst hr0eq
        exact ⟨List.mem_cons_of_mem u hsin, r0, hr0, hru', hrid', hac'⟩

theorem usersLoop_nocrash (ok : Int → Int → Bool) (today : PyDate) :
    ∀ (us : List Int) (db : DB), noCrash today db →
    (usersLoop ok today us db).2.2 = false
  | [], db, _ => rfl
  | u :: us, db, hnc => by
    have hcrash : (sweepUser ok today u
        (get_birthdays_for_user u db)).2.2 = false :=
      sweepUser_nocrash ok today u _ (snapshot_noCrash today u db hnc)
    rw [usersLoop_cons_ok ok today u us db hcrash]
    exact usersLoop_nocrash ok today us _
      (noCrash_applyMarks today _ db hnc)

theorem usersLoop_complete (ok : Int → Int → Bool) (today : PyDate) :
    ∀ (us : List Int) (db : DB), (rowIds db).Nodup → us.Nodup →
    noCrash today db →
    ∀ r ∈ db.rows, r.user_id ∈ us → ∀ occ : PyDate,
    next_occurrence r.day r.month today = some occ →
    0 ≤ dateSubDays occ today → dateSubDays occ today ≤ DAYS_BEFORE →
    r.last_notified_year ≠ some occ.year →
    (r.user_id, r.id, dateSubDays occ today)
      ∈ (usersLoop ok today us db).2.1
  | [], _, _, _, _, r, _, hmem, _, _, _, _, _ => by simp at hmem
  | u :: us, db, hnd, hus, hnc, r, hr, hmem, occ, hocc, hd0, hd3, hlny => by
    rw [List.nodup_cons] at hus
    rcases hus with ⟨hunotin, husnd⟩
    have hsnapnc := snapshot_noCrash today u db hnc
    have hcrash : (sweepUser ok today u
        (get_birthdays_for_user u db)).2.2 = false :=
      sweepUser_nocrash ok today u _ hsnapnc
    rw [usersLoop_cons_ok ok today u us db hcrash]
    rcases List.mem_cons.1 hmem with he | hmem2
    · apply List.mem_append.2
      left
      have hrs : r ∈ get_birthdays_for_user u db :=
        (mem_snapshot u db r).2 ⟨hr, he⟩
      have := sweepUser_complete ok today u _ hsnapnc r hrs occ hocc hd0
        hd3 hlny
      rw [he]
      exact this
    · apply List.mem_append.2
      right
      have hru : r.user_id ≠ u := fun he2 => hunotin (he2 ▸ hmem2)
      have hnoop := patch_marks_other_user ok today u db hnd r hr hru
      have hr' : r ∈ (applyMarks (sweepUser ok today u
          (get_birthdays_for_user u db)).2.1 db).rows := by
        rw [applyMarks_rows, ← hnoop]
        exact List.mem_map_of_mem _ hr
      have hnd' : (rowIds (applyMarks (sweepUser ok today u
          (get_birthdays_for_user u db)).2.1 db)).Nodup := by
        rw [rowIds_applyMarks]
        exact hnd
      exact usersLoop_complete ok today us _ hnd' husnd
        (noCrash_applyMarks today _ db hnc) r hr' hmem2 occ hocc hd0 hd3 hlny

theorem usersLoop_frame (ok : Int → Int → Bool) (today : PyDate) :
    ∀ (us : List Int) (db : DB), (rowIds db).Nodup →
    ∀ r ∈ db.rows, r.user_id ∉ us → r ∈ (usersLoop ok today us db).1.rows
  | [], db, _, r, hr, _ => by rw [usersLoop_nil]; exact hr
  | u :: us, db, hnd, r, hr, hmem => by
    have hru : r.user_id ≠ u := fun he => hmem (he ▸ List.mem_cons_self u us)
    have hnotin2 : r.user_id ∉ us := fun hin =>
      hmem (List.mem_cons_of_mem u hin)
    have hnoop := patch_marks_other_user ok today u db hnd r hr hru
    have hr' : r ∈ (applyMarks (sweepUser ok today u
        (get_birthdays_for_user u db)).2.1 db).rows := by
      rw [applyMarks_rows, ← hnoop]
      exact List.mem_map_of_mem _ hr
    have hnd' : (rowIds (applyMarks (sweepUser ok today u
        (get_birthdays_for_user u db)).2.1 db)).Nodup := by
      rw [rowIds_applyMarks]
      exact hnd
    cases hcrash : (sweepUser ok today u
        (get_birthdays_for_user u db)).2.2 with
    | true =>
      rw [usersLoop_cons_crash ok today u us db hcrash]
      exact hr'
    | false =>
      rw [usersLoop_cons_ok ok today u us db hcrash]
      exact usersLoop_frame ok today us _ hnd' r hr' hnotin2

theorem usersLoop_unmarked (ok : Int → Int → Bool) (today : PyDate) :
    ∀ (us : List Int) (db : DB), (rowIds db).Nodup →
    ∀ b ∈ db.rows, ok b.user_id b.id = false →
    b ∈ (usersLoop ok today us db).1.rows
  | [], db, _, b, hb, _ => by rw [usersLoop_nil]; exact hb
  | u :: us, db, hnd, b, hb, hfail => by
    have hnoop : patchMarks (sweepUser ok today u
        (get_birthdays_for_user u db)).2.1 b = b := by
      by_cases hu : b.user_id = u
      · rw [← hu]
        exact patch_marks_failed ok today db hnd b hb hfail
      · exact patch_marks_other_user ok today u db hnd b hb hu
    have hb' : b ∈ (applyMarks (sweepUser ok today u
        (get_birthdays_for_user u db)).2.1 db).rows := by
      rw [applyMarks_rows, ← hnoop]
      exact List.mem_map_of_mem _ hb
    have hnd' : (rowIds (applyMarks (sweepUser ok today u
        (get_birthdays_for_user u db)).2.1 db)).Nodup := by
      rw [rowIds_applyMarks]
      exact hnd
    cases hcrash : (sweepUser ok today u
        (get_birthdays_for_user u db)).2.2 with
    | true =>
      rw [usersLoop_cons_crash ok today u us db hcrash]
      exact hb'
    | false =>
      rw [usersLoop_cons_ok ok today u us db hcrash]
      exact usersLoop_unmarked ok today us _ hnd' b hb' hfail

theorem patchMarks_append (ms1 ms2 : List (Int × Int)) (r : Row) :
    patchMarks (ms1 ++ ms2) r = patchMarks ms2 (patchMarks ms1 r) :=
  List.foldl_append _ _ _ _

theorem usersLoop_rows_patch (ok : Int → Int → Bool) (today : PyDate) :
    ∀ (us : List Int) (db : DB), ∃ ms : List (Int × Int),
    (usersLoop ok today us db).1.rows = db.rows.map (patchMarks ms)
  | [], db => ⟨[], by
    rw [usersLoop_nil, ← applyMarks_rows, applyMarks_nil]⟩
  | u :: us, db => by
    cases hcrash : (sweepUser ok today u
        (get_birthdays_for_user u db)).2.2 with
    | true =>
      refine ⟨(sweepUser ok today u (get_birthdays_for_user u db)).2.1, ?_⟩
      rw [usersLoop_cons_crash ok today u us db hcrash]
      exact applyMarks_rows _ db
    | false =>
      rcases usersLoop_rows_patch ok today us (applyMarks (sweepUser ok
        today u (get_birthdays_for_user u db)).2.1 db) with ⟨ms', hms'⟩
      refine ⟨(sweepUser ok today u (get_birthdays_for_user u db)).2.1
        ++ ms', ?_⟩
      rw [usersLoop_cons_ok ok today u us db hcrash, hms', applyMarks_rows,
        List.map_map]
      exact List.map_congr_left
        (fun r _ => (patchMarks_append _ ms' r).symm)

/-! ## Sweep lemmas: distinct users -/

theorem mem_dedupFirstAux : ∀ (l seen : List Int) (x : Int),
    x ∈ dedupFirstAux l seen ↔ x ∈ l ∧ x ∉ seen
  | [], seen, x => by simp [dedupFirstAux]
  | y :: xs, seen, x => by
    simp only [dedupFirstAux]
    by_cases hy : y ∈ seen
    · rw [if_pos hy, mem_dedupFirstAux xs seen x, List.mem_cons]
      constructor
      · rintro ⟨hx, hns⟩
        exact ⟨Or.inr hx, hns⟩
      · rintro ⟨hx | hx, hns⟩
        · exact absurd (hx ▸ hy) hns
        · exact ⟨hx, hns⟩
    · rw [if_neg hy, List.mem_cons, mem_dedupFirstAux xs (y :: seen) x]
      simp only [List.mem_cons]
      constructor
      · rintro (rfl | ⟨hx2, hns⟩)
        · exact ⟨Or.inl rfl, hy⟩
        · push_neg at hns
          exact ⟨Or.inr hx2, hns.2⟩
      · rintro ⟨hx2 | hx2, hns⟩
        · exact Or.inl hx2
        · by_cases hxy : x = y
          · exact Or.inl hxy
          · refine Or.inr ⟨hx2, ?_⟩
            push_neg
            exact ⟨hxy, hns⟩

theorem nodup_dedupFirstAux : ∀ (l seen : List Int),
    (dedupFirstAux l seen).Nodup
  | [], _ => List.Pairwise.nil
  | y :: xs, seen => by
    simp only [dedupFirstAux]
    by_cases hy : y ∈ seen
    · rw [if_pos hy]
      exact nodup_dedupFirstAux xs seen
    · rw [if_neg hy]
      refine List.nodup_cons.2 ⟨?_, nodup_dedupFirstAux xs (y :: seen)⟩
      intro hmem
      exact ((mem_dedupFirstAux xs (y :: seen) y).1 hmem).2
        (List.mem_cons_self y seen)

theorem get_all_users_nodup (db : DB) : (get_all_users db).Nodup :=
  nodup_dedupFirstAux _ _

theorem mem_get_all_users (db : DB) (r : Row) (hr : r ∈ db.rows) :
    r.user_id ∈ get_all_users db := by
  unfold get_all_users
  rw [mem_dedupFirstAux]
  exact ⟨List.mem_map_of_mem _ hr, by simp⟩

/-- The central counting fact: with distinct row ids and users, a crash-free
database, and a due, unnotified record `b` whose delivery succeeds, the user
loop sends exactly one reminder for `b`'s id when `b`'s owner is in the list
(marking `b` notified), and none otherwise (leaving `b` unchanged). -/
theorem usersLoop_count (ok : Int → Int → Bool) (today : PyDate) :
    ∀ (us : List Int) (db : DB), (rowIds db).Nodup → us.Nodup →
    noCrash today db →
    ∀ b ∈ db.rows, ∀ occ : PyDate,
    next_occurrence b.day b.month today = some occ →
    0 ≤ dateSubDays occ today → dateSubDays occ today ≤ DAYS_BEFORE →
    b.last_notified_year ≠ some occ.year → ok b.user_id b.id = true →
    (countId b.id (usersLoop ok today us db).2.1 =
      if b.user_id ∈ us then 1 else 0) ∧
    (if b.user_id ∈ us then
      { b with last_notified_year := some occ.year }
        ∈ (usersLoop ok today us db).1.rows
    else b ∈ (usersLoop ok today us db).1.rows)
  | [], db, _, _, _, b, hb, occ, _, _, _, _, _ => by
    rw [usersLoop_nil]
    constructor
    · simp [countId_nil]
    · simp
      exact hb
  | u :: us, db, hnd, hus, hnc, b, hb, occ, hocc, hd0, hd3, hlny, hok => by
    rw [List.nodup_cons] at hus
    rcases hus with ⟨hunotin, husnd⟩
    have hsnapnc := snapshot_noCrash today u db hnc
    have hcrash : (sweepUser ok today u
        (get_birthdays_for_user u db)).2.2 = false :=
      sweepUser_nocrash ok today u _ hsnapnc
    rw [usersLoop_cons_ok ok today u us db hcrash]
    have hnd' : (rowIds (applyMarks (sweepUser ok today u
        (get_birthdays_for_user u db)).2.1 db)).Nodup := by
      rw [rowIds_applyMarks]
      exact hnd
    by_cases hbu : b.user_id = u
    · have hbin : b ∈ get_birthdays_for_user u db :=
        (mem_snapshot u db b).2 ⟨hb, hbu⟩
      have hok' : ok u b.id = true := hbu ▸ hok
      have hcount1 : countId b.id (sweepUser ok today u
          (get_birthdays_for_user u db)).1 = 1 :=
        sweepUser_countId_one ok today u _ (snapshot_ids_nodup db hnd u)
          hsnapnc b hbin occ hocc hd0 hd3 hlny
      have hmarkmem : (b.id, occ.year) ∈ (sweepUser ok today u
          (get_birthdays_for_user u db)).2.1 :=
        sweepUser_mark_mem ok today u _ hsnapnc b hbin occ hocc hd0 hd3
          hlny hok'
      have huni : ∀ p ∈ (sweepUser ok today u
          (get_birthdays_for_user u db)).2.1, p.1 = b.id → p.2 = occ.year := by
        intro p hp hpid
        rcases sweepUser_marks_sound ok today u _ p hp with
          ⟨c, hc, hcid, _, occ2, hocc2, hp2⟩
        rcases (mem_snapshot u db c).1 hc with ⟨hcr, _⟩
        have hcb : c = b := rows_id_inj db hnd c hcr b hb
          (by rw [← hcid, hpid])
        subst hcb
        rw [hocc] at hocc2
        rw [hp2, ← Option.some.inj hocc2]
      have hpatch : patchMarks (sweepUser ok today u
          (get_birthdays_for_user u db)).2.1 b =
          { b with last_notified_year := some occ.year } :=
        patchMarks_mark _ b occ.year hmarkmem huni
      have hbM : { b with last_notified_year := some occ.year }
          ∈ (applyMarks (sweepUser ok today u
            (get_birthdays_for_user u db)).2.1 db).rows := by
        rw [applyMarks_rows, ← hpatch]
        exact List.mem_map_of_mem _ hb
      have hrest0 : countId b.id (usersLoop ok today us (applyMarks
          (sweepUser ok today u (get_birthdays_for_user u db)).2.1
          db)).2.1 = 0 := by
        apply countId_eq_zero
        intro s hs hsid
        rcases usersLoop_sends_sound ok today us _ hnd' husnd s hs with
          ⟨hsin, r', hr', hru', hrid', _⟩
        have hr'eq : r' = { b with last_notified_year := some occ.year } :=
          rows_id_inj _ hnd' r' hr' _ hbM (by rw [hrid', hsid])
        apply hunotin
        have hs1u : s.1 = u := by
          rw [← hru', hr'eq, ← hbu]
        rw [← hs1u]
        exact hsin
      have hfinal : { b with last_notified_year := some occ.year }
          ∈ (usersLoop ok today us (applyMarks (sweepUser ok today u
            (get_birthdays_for_user u db)).2.1 db)).1.rows := by
        apply usersLoop_frame ok today us _ hnd' _ hbM
        intro hin
        exact hunotin (hbu ▸ hin)
      have hmem : b.user_id ∈ u :: us := by
        rw [hbu]
        exact List.mem_cons_self u us
      constructor
      · rw [countId_append, hcount1, hrest0, if_pos hmem]
      · rw [if_pos hmem]
        exact hfinal
    · have hnoop := patch_marks_other_user ok today u db hnd b hb hbu
      have hb' : b ∈ (applyMarks (sweepUser ok today u
          (get_birthdays_for_user u db)).2.1 db).rows := by
        rw [applyMarks_rows, ← hnoop]
        exact List.mem_map_of_mem _ hb
      have hIH := usersLoop_count ok today us _ hnd' husnd
        (noCrash_applyMarks today _ db hnc) b hb' occ hocc hd0 hd3 hlny hok
      have hthis0 : countId b.id (sweepUser ok today u
          (get_birthdays_for_user u db)).1 = 0 := by
        apply countId_eq_zero
        intro s hs hsid
        rcases sweepUser_sends_sound ok today u _ s hs with
          ⟨_, c, hc, hcid, _⟩
        rcases (mem_snapshot u db c).1 hc with ⟨hcr, hcu⟩
        have hcb : c = b := rows_id_inj db hnd c hcr b hb
          (by rw [← hcid, hsid])
        exact hbu (hcb ▸ hcu)
      have hmemiff : (b.user_id ∈ u :: us) ↔ (b.user_id ∈ us) := by
        rw [List.mem_cons]
        exact or_iff_right hbu
      rcases hIH with ⟨hc2, hstate⟩
      constructor
      · rw [countId_append, hthis0, hc2, Nat.zero_add]
        by_cases hmem : b.user_id ∈ us
        · rw [if_pos hmem, if_pos (hmemiff.2 hmem)]
        · rw [if_neg hmem, if_neg (fun h => hmem (hmemiff.1 h))]
      · by_cases hmem : b.user_id ∈ us
        · rw [if_pos (hmemiff.2 hmem)]
          rw [if_pos hmem] at hstate
          exact hstate
        · rw [if_neg (fun h => hmem (hmemiff.1 h))]
          rw [if_neg hmem] at hstate
          exact hstate

/-! ## C3: one reminder per cycle -/

/-- C3: with distinct row ids, a crash-free state, and a record `b` that is
due (days_left within the window), not yet notified for this cycle, and whose
delivery succeeds, one sweep invokes `send_message` exactly once for `b` and
stores the occurrence year in `b`'s `last_notified_year`; re-running the sweep
on the resulting state with the same `today` sends nothing further for `b`. -/
theorem daily_check_notifies_once (ok : Int → Int → Bool) (today : PyDate)
    (db : DB) (hnd : (rowIds db).Nodup) (hnc : noCrash today db)
    (b : Row) (hb : b ∈ db.rows) (occ : PyDate)
    (hocc : next_occurrence b.day b.month today = some occ)
    (hd0 : 0 ≤ dateSubDays occ today)
    (hd3 : dateSubDays occ today ≤ DAYS_BEFORE)
    (hlny : b.last_notified_year ≠ some occ.year)
    (hok : ok b.user_id b.id = true) :
    countId b.id (daily_check ok today db).2.1 = 1 ∧
    { b with last_notified_year := some occ.year }
      ∈ (daily_check ok today db).1.rows ∧
    countId b.id
      (daily_check ok today (daily_check ok today db).1).2.1 = 0 := by
  have hcore := usersLoop_count ok today (get_all_users db) db hnd
    (get_all_users_nodup db) hnc b hb occ hocc hd0 hd3 hlny hok
  have hmem : b.user_id ∈ get_all_users db := mem_get_all_users db b hb
  rcases hcore with ⟨hcount, hstate⟩
  rw [if_pos hmem] at hcount hstate
  refine ⟨hcount, hstate, ?_⟩
  rcases usersLoop_rows_patch ok today (get_all_users db) db with ⟨ms, hms⟩
  have hrowIds2 : rowIds (daily_check ok today db).1 = rowIds db := by
    show ((usersLoop ok today (get_all_users db) db).1.rows.map
      (fun r => r.id)) = rowIds db
    rw [hms, List.map_map]
    exact List.map_congr_left (fun r _ => (patchMarks_keeps ms r).1)
  have hnd2 : (rowIds (daily_check ok today db).1).Nodup := by
    rw [hrowIds2]
    exact hnd
  apply countId_eq_zero
  intro s hs hsid
  rcases usersLoop_sends_sound ok today
    (get_all_users (daily_check ok today db).1) _ hnd2
    (get_all_users_nodup _) s hs with ⟨_, r2, hr2, _, hrid2, hac2⟩
  have hr2eq : r2 = { b with last_notified_year := some occ.year } :=
    rows_id_inj _ hnd2 r2 hr2 _ hstate (by rw [hrid2, hsid])
  rcases hac2 with ⟨occ2, hocc2, _, _, _, hlny2⟩
  rw [hr2eq] at hocc2 hlny2
  have hocc2' : next_occurrence b.day b.month today = some occ2 := hocc2
  have hlny2' : some occ.year ≠ some occ2.year := hlny2
  rw [hocc] at hocc2'
  exact hlny2' (by rw [Option.some.inj hocc2'])

/-- C3 witness: the theorem applied to the one-record store (Masha, 14.02,
never notified) at today = 2024-02-12 (days_left 2) with an always-succeeding
transport. -/
theorem daily_check_notifies_once_witness :
    countId 1 (daily_check (fun _ _ => true) ⟨2024, 2, 12⟩ dbOne).2.1 = 1 := by
  exact (daily_check_notifies_once (fun _ _ => true) ⟨2024, 2, 12⟩ dbOne
    (by decide) (by decide) ⟨1, 7, "Masha", 14, 2, some 2004, none⟩
    (by decide) ⟨2024, 2, 14⟩ (by decide) (by decide) (by decide) (by decide)
    (by decide)).1

/-! ## C4: delivery failure is isolated -/

/-- C4: with distinct row ids and a crash-free state, when delivery fails for
a due record `b`, the sweep leaves `b` entirely unchanged in the store (its
`last_notified_year` is not set, so the next run retries it), completes
without aborting, still attempts `b`, and still attempts every due record of
every owner. -/
theorem daily_check_failure_isolated (ok : Int → Int → Bool) (today : PyDate)
    (db : DB) (hnd : (rowIds db).Nodup) (hnc : noCrash today db)
    (b : Row) (hb : b ∈ db.rows) (occ : PyDate)
    (hocc : next_occurrence b.day b.month today = some occ)
    (hd0 : 0 ≤ dateSubDays occ today)
    (hd3 : dateSubDays occ today ≤ DAYS_BEFORE)
    (hlny : b.last_notified_year ≠ some occ.year)
    (hfail : ok b.user_id b.id = false) :
    b ∈ (daily_check ok today db).1.rows ∧
    (daily_check ok today db).2.2 = false ∧
    (b.user_id, b.id, dateSubDays occ today)
      ∈ (daily_check ok today db).2.1 ∧
    ∀ r ∈ db.rows, ∀ occ2 : PyDate,
      next_occurrence r.day r.month today = some occ2 →
      0 ≤ dateSubDays occ2 today → dateSubDays occ2 today ≤ DAYS_BEFORE →
      r.last_notified_year ≠ some occ2.year →
      (r.user_id, r.id, dateSubDays occ2 today)
        ∈ (daily_check ok today db).2.1 := by
  refine ⟨usersLoop_unmarked ok today _ db hnd b hb hfail,
    usersLoop_nocrash ok today _ db hnc, ?_, ?_⟩
  · exact usersLoop_complete ok today _ db hnd (get_all_users_nodup db) hnc
      b hb (mem_get_all_users db b hb) occ hocc hd0 hd3 hlny
  · intro r hr occ2 hocc2 h0 h3 hl
    exact usersLoop_complete ok today _ db hnd (get_all_users_nodup db) hnc
      r hr (mem_get_all_users db r hr) occ2 hocc2 h0 h3 hl

/-- C4 witness: two owners, both records due at 2024-02-12; delivery fails
for record 1 (only record 2 is reachable), yet record 1 stays unchanged and
the sweep finishes without crashing. -/
theorem daily_check_failure_isolated_witness :
    (⟨1, 7, "Masha", 14, 2, some 2004, none⟩ : Row)
      ∈ (daily_check (fun _ i => i == 2) ⟨2024, 2, 12⟩ dbTwo).1.rows ∧
    (daily_check (fun _ i => i == 2) ⟨2024, 2, 12⟩ dbTwo).2.2 = false := by
  refine ⟨?_, ?_⟩
  · exact (daily_check_failure_isolated (fun _ i => i == 2) ⟨2024, 2, 12⟩
      dbTwo (by decide) (by decide)
      ⟨1, 7, "Masha", 14, 2, some 2004, none⟩ (by decide) ⟨2024, 2, 14⟩
      (by decide) (by decide) (by decide) (by decide) (by decide)).1
  · exact (daily_check_failure_isolated (fun _ i => i == 2) ⟨2024, 2, 12⟩
      dbTwo (by decide) (by decide)
      ⟨1, 7, "Masha", 14, 2, some 2004, none⟩ (by decide) ⟨2024, 2, 14⟩
      (by decide) (by decide) (by decide) (by decide) (by decide)).2.1

/-! ## C5: records outside the window are never sent -/

/-- C5: with distinct row ids, a record whose next occurrence lies more than
the lookahead window (3 days) away is never passed to the messaging
collaborator: the sweep's send list carries no entry with that record's id. -/
theorem daily_check_window (ok : Int → Int → Bool) (today : PyDate) (db : DB)
    (hnd : (rowIds db).Nodup) (b : Row) (hb : b ∈ db.rows) (occ : PyDate)
    (hocc : next_occurrence b.day b.month today = some occ)
    (hfar : DAYS_BEFORE < dateSubDays occ today) :
    countId b.id (daily_check ok today db).2.1 = 0 := by
  apply countId_eq_zero
  intro s hs hsid
  rcases usersLoop_sends_sound ok today (get_all_users db) db hnd
    (get_all_users_nodup db) s hs with ⟨_, r, hr, _, hrid, hac⟩
  have hrb : r = b := rows_id_inj db hnd r hr b hb (by rw [hrid, hsid])
  rcases hac with ⟨occ2, hocc2, hdleq, _, hdl3, _⟩
  rw [hrb, hocc] at hocc2
  have : occ2 = occ := (Option.some.inj hocc2).symm
  rw [hdleq, this] at hdl3
  omega

/-- C5 witness: at today = 2024-01-01 the record due 14.02 is 44 days away,
and the sweep sends nothing for it. -/
theorem daily_check_window_witness :
    countId 1 (daily_check (fun _ _ => true) ⟨2024, 1, 1⟩ dbOne).2.1 = 0 := by
  exact daily_check_window (fun _ _ => true) ⟨2024, 1, 1⟩ dbOne (by decide)
    ⟨1, 7, "Masha", 14, 2, some 2004, none⟩ (by decide) ⟨2024, 2, 14⟩
    (by decide) (by decide)

end Birthday
